import Mathlib

/- Verification of the TrailCurrent FreeCAD plugin geometry core.

The Python sources (logo_geometry.py, logo_deboss.py, logotext_geometry.py,
logotext_deboss.py, qr_emboss.py, logo_command.py) are shallowly embedded
below: floating-point scalars become exact rationals, Part shapes become
explicit data (finite point sets for the 2D boolean layer algebra, rectangle
lists for the QR rasterizer, symbolic shape values in a document store for
the mutation/frame-effect analysis), and Python exceptions become Except
values.  Each claim theorem is stated over these embeddings. -/

namespace LogoPlugin

/-! Layer isolation, from logo_deboss.apply_logo (lines 135-143) and
logotext_deboss.apply_logotext (lines 73-81).  A 2D region is modelled as a
finite set of sample points; Part.Shape.cut between coplanar faces is set
difference.  The four input shapes are the raw faces returned by
create_logo_faces. -/

structure LogoFaces (α : Type) where
  circle : Finset α
  mountain : Finset α
  trail : Finset α
  bolt : Finset α

variable {α : Type} [DecidableEq α]

/-- bolt_layer = faces["bolt"]  (highest priority, untouched). -/
def boltLayer (f : LogoFaces α) : Finset α := f.bolt

/-- trail_layer = faces["trail"].cut(faces["bolt"]). -/
def trailLayer (f : LogoFaces α) : Finset α := f.trail \ f.bolt

/-- mountain_layer = faces["mountain"].cut(faces["trail"]).cut(faces["bolt"]). -/
def mountainLayer (f : LogoFaces α) : Finset α := (f.mountain \ f.trail) \ f.bolt

/-- circle_layer = faces["circle"].cut(mountain).cut(trail).cut(bolt). -/
def circleLayer (f : LogoFaces α) : Finset α :=
  ((f.circle \ f.mountain) \ f.trail) \ f.bolt

/-- Concrete faces used by the C1 witness. -/
def sampleFaces : LogoFaces ℕ :=
  { circle := {0, 1, 2, 3, 4, 5}
    mountain := {1, 2, 3}
    trail := {2, 3, 4, 6}
    bolt := {3, 4, 7} }

/-! Per-layer depths and the 1e-4 mm epsilon filter, from
logo_deboss.apply_logo (lines 148-171) and logotext_deboss.apply_logotext
(lines 89-112).  A kept layer is extruded by Vector(0, 0, depth). -/

def depthEps : ℚ := 1 / 10000

/-- Layer list of apply_logo in source order with its computed depths. -/
def logoLayerDepths (totalDepth mr tr br : ℚ) : List (String × ℚ) :=
  [("circle", totalDepth), ("mountain", totalDepth * mr),
   ("trail", totalDepth * tr), ("bolt", totalDepth * br)]

/-- Layer list of apply_logotext: the logo layers plus the text layer. -/
def logotextLayerDepths (totalDepth mr tr br txr : ℚ) : List (String × ℚ) :=
  logoLayerDepths totalDepth mr tr br ++ [("text", totalDepth * txr)]

/-- The extrusion built for one kept layer: the layer name together with the
z component of the extrusion vector Vector(0, 0, depth). -/
structure Extrusion where
  name : String
  vecZ : ℚ
  deriving DecidableEq

/-- The loop body "if depth < 1e-4: continue / solid = face.extrude(Vector(0,0,depth))";
layers whose depth is below the epsilon are dropped, the others are extruded
by exactly their depth. -/
def cuttingExtrusions (layers : List (String × ℚ)) : List Extrusion :=
  layers.filterMap fun p => if p.2 < depthEps then none else some ⟨p.1, p.2⟩

/-! QR rasterizer, from qr_emboss._create_qr_solid (lines 126-181).
The row-run merge scans each row left to right and turns every maximal run
of True cells into one rectangle.  runsGo is the inner while-loop of the
source: the accumulator is the optional start index of the run currently
being scanned. -/

def runsGo : List Bool → ℕ → Option ℕ → List (ℕ × ℕ)
  | [], _, none => []
  | [], i, some s => [(s, i)]
  | b :: rest, i, none =>
      if b then runsGo rest (i + 1) (some i) else runsGo rest (i + 1) none
  | b :: rest, i, some s =>
      if b then runsGo rest (i + 1) (some s) else (s, i) :: runsGo rest (i + 1) none

/-- All maximal runs (start, stop) of True cells of one row, left to right. -/
def rowRuns (row : List Bool) : List (ℕ × ℕ) := runsGo row 0 none

/-- Merged rectangles of the whole matrix as (row, start, stop) triples,
row by row from row 0. -/
def qrRectsGo : List (List Bool) → ℕ → List (ℕ × ℕ × ℕ)
  | [], _ => []
  | row :: rest, r => (rowRuns row).map (fun p => (r, p)) ++ qrRectsGo rest (r + 1)

def qrRects (m : List (List Bool)) : List (ℕ × ℕ × ℕ) := qrRectsGo m 0

/-- An axis-aligned rectangle [x1, x2] x [y1, y2] in the local XY plane. -/
structure Rect where
  x1 : ℚ
  y1 : ℚ
  x2 : ℚ
  y2 : ℚ
  deriving DecidableEq

/-- Coordinates of the rectangle of run (row, start, stop):
module_size = qr_size / n, half = qr_size / 2, x1 = -half + start * ms,
x2 = -half + stop * ms, y2 = half - row * ms, y1 = half - (row + 1) * ms. -/
def rectOf (qrSize : ℚ) (n : ℕ) (t : ℕ × ℕ × ℕ) : Rect :=
  { x1 := -(qrSize / 2) + (t.2.1 : ℚ) * (qrSize / (n : ℚ))
    y1 := qrSize / 2 - ((t.1 : ℚ) + 1) * (qrSize / (n : ℚ))
    x2 := -(qrSize / 2) + (t.2.2 : ℚ) * (qrSize / (n : ℚ))
    y2 := qrSize / 2 - (t.1 : ℚ) * (qrSize / (n : ℚ)) }

def rectArea (r : Rect) : ℚ := (r.x2 - r.x1) * (r.y2 - r.y1)

/-- Column j lies inside some run of a single row. -/
def coveredRuns (runs : List (ℕ × ℕ)) (j : ℕ) : Prop :=
  ∃ p ∈ runs, p.1 ≤ j ∧ j < p.2

/-- Module (r, c) lies inside some emitted rectangle. -/
def coveredRects (rects : List (ℕ × ℕ × ℕ)) (r c : ℕ) : Prop :=
  ∃ t ∈ rects, t.1 = r ∧ t.2.1 ≤ c ∧ c < t.2.2

instance (rects : List (ℕ × ℕ × ℕ)) (r c : ℕ) : Decidable (coveredRects rects r c) :=
  List.decidableBEx _ rects

/-- Two run triples occupy different rows or disjoint column intervals. -/
def RectDisjoint (a b : ℕ × ℕ × ℕ) : Prop :=
  a.1 ≠ b.1 ∨ a.2.2 ≤ b.2.1 ∨ b.2.2 ≤ a.2.1

/-- matrix[r][c] with Python's in-range access modelled by getD. -/
def moduleAt (m : List (List Bool)) (r c : ℕ) : Bool := (m.getD r []).getD c false

/-- Total number of True (dark) modules. -/
def trueCountM (m : List (List Bool)) : ℕ := (m.map fun row => row.count true).sum

/-- The extruded compound: one rectangle per merged run, the planar faces
built at z = -overlap, the whole compound extruded by
Vector(0, 0, height + overlap). -/
structure QrSolid where
  rects : List Rect
  zBase : ℚ
  extrudeZ : ℚ
  deriving DecidableEq

/-- Embedding of _create_qr_solid: None when the matrix is empty or has no
dark module, otherwise the compound solid record. -/
def createQrSolid (m : List (List Bool)) (qrSize height overlap : ℚ) : Option QrSolid :=
  if m.length = 0 then none
  else if qrRects m = [] then none
  else some ⟨(qrRects m).map (rectOf qrSize m.length), -overlap, height + overlap⟩

/-- Top z coordinate reached by the extrusion. -/
def zTop (s : QrSolid) : ℚ := s.zBase + s.extrudeZ

/-- Concrete 3x3 matrix used by the C2 witness. -/
def sampleMatrix : List (List Bool) :=
  [[true, true, false], [false, true, false], [true, false, true]]

/-! Vectors and the face coordinate frame, from logo_deboss._compute_face_frame
(lines 15-56) and qr_emboss._compute_face_frame (lines 75-100).  FreeCAD
Vector coordinates are modelled as rationals. -/

structure Vec3 where
  x : ℚ
  y : ℚ
  z : ℚ
  deriving DecidableEq

def Vec3.add (a b : Vec3) : Vec3 := ⟨a.x + b.x, a.y + b.y, a.z + b.z⟩

instance : Add Vec3 := ⟨Vec3.add⟩

def Vec3.smul (a : Vec3) (c : ℚ) : Vec3 := ⟨a.x * c, a.y * c, a.z * c⟩

def Vec3.neg (a : Vec3) : Vec3 := ⟨-a.x, -a.y, -a.z⟩

def Vec3.cross (a b : Vec3) : Vec3 :=
  ⟨a.y * b.z - a.z * b.y, a.z * b.x - a.x * b.z, a.x * b.y - a.y * b.x⟩

def Vec3.normSq (a : Vec3) : ℚ := a.x ^ 2 + a.y ^ 2 + a.z ^ 2

/-- Rational stand-in for math.sqrt: exact whenever the argument is the
square of a rational (every vector length appearing in the concrete inputs
below is such a square), and zero exactly on input zero, which is the only
property the error-behaviour claims depend on. -/
def ratSqrt (q : ℚ) : ℚ :=
  if q ≤ 0 then 0 else (Nat.sqrt q.num.toNat : ℚ) / (Nat.sqrt q.den : ℚ)

inductive GeomErr where
  | nullVector
  deriving DecidableEq

def vlen (v : Vec3) : ℚ := ratSqrt v.normSq

/-- FreeCAD Vector.normalize: raises on a null vector, otherwise scales the
vector to unit length. -/
def normalizeV (v : Vec3) : Except GeomErr Vec3 :=
  if vlen v = 0 then Except.error GeomErr.nullVector
  else Except.ok (v.smul (1 / vlen v))

/-- The underlying surface of a face.  Both a Plane and a Cylinder expose an
Axis attribute in FreeCAD, so hasattr(surface, "Axis") does not distinguish
them; a freeform surface has none. -/
inductive SurfaceModel where
  | plane (axis : Vec3)
  | cylinder (axis : Vec3)
  | freeform
  deriving DecidableEq

def SurfaceModel.hasAxisAttr : SurfaceModel → Bool
  | .plane _ => true
  | .cylinder _ => true
  | .freeform => false

def SurfaceModel.axis : SurfaceModel → Vec3
  | .plane a => a
  | .cylinder a => a
  | .freeform => ⟨0, 0, 0⟩

structure FaceModel where
  surface : SurfaceModel
  normalAtMid : Vec3
  centerOfMass : Vec3
  deriving DecidableEq

def FaceModel.isPlanar (f : FaceModel) : Bool :=
  match f.surface with
  | .plane _ => true
  | _ => false

structure Frame where
  center : Vec3
  uAxis : Vec3
  vAxis : Vec3
  normal : Vec3
  deriving DecidableEq

/-- Seed choice of _compute_face_frame: the world axis least parallel to the
normal. -/
def seedFor (normal : Vec3) : Vec3 :=
  if |normal.x| ≤ |normal.y| ∧ |normal.x| ≤ |normal.z| then ⟨1, 0, 0⟩
  else if |normal.y| ≤ |normal.x| ∧ |normal.y| ≤ |normal.z| then ⟨0, 1, 0⟩
  else ⟨0, 0, 1⟩

/-- logo_deboss._compute_face_frame: normal from surface.Axis when the
attribute exists, else from normalAt at the parametric midpoint; then
u = normalize(normal x seed), v = normalize(normal x u).  The body contains
no planarity check and no raise besides normalize's null-vector error. -/
def computeFaceFrameLogo (face : FaceModel) : Except GeomErr Frame :=
  let normal := if face.surface.hasAxisAttr then face.surface.axis
                else face.normalAtMid
  let center := face.centerOfMass
  let seed := seedFor normal
  match normalizeV (Vec3.cross normal seed) with
  | Except.error e => Except.error e
  | Except.ok u =>
    match normalizeV (Vec3.cross normal u) with
    | Except.error e => Except.error e
    | Except.ok v => Except.ok ⟨center, u, v, normal⟩

/-- qr_emboss._compute_face_frame: always uses normalAt(midpoint).normalize,
then the same seed/u/v construction; again no planarity check. -/
def computeFaceFrameQr (face : FaceModel) : Except GeomErr Frame :=
  match normalizeV face.normalAtMid with
  | Except.error e => Except.error e
  | Except.ok normal =>
    let center := face.centerOfMass
    let seed := seedFor normal
    match normalizeV (Vec3.cross normal seed) with
    | Except.error e => Except.error e
    | Except.ok u =>
      match normalizeV (Vec3.cross normal u) with
      | Except.error e => Except.error e
      | Except.ok v => Except.ok ⟨center, u, v, normal⟩

/-- A face whose underlying surface is a cylinder along the world Z axis:
not planar, yet its surface still has an Axis attribute. -/
def cylFace : FaceModel :=
  { surface := SurfaceModel.cylinder ⟨0, 0, 1⟩
    normalAtMid := ⟨1, 0, 0⟩
    centerOfMass := ⟨0, 0, 0⟩ }

/-! Stroke buffering, from logo_geometry._buffer_path (lines 60-144).
Points are rational pairs; math.hypot is ratSqrt of the squared length, and
the trigonometric cap-point factors (cosines/sines of the irrational cap
angles) are abstracted as an input table, since the division-by-zero claims
do not depend on their values. -/

abbrev Q2 := ℚ × ℚ

def psub (a b : Q2) : Q2 := (a.1 - b.1, a.2 - b.2)

def hypotQ (dx dy : ℚ) : ℚ := ratSqrt (dx ^ 2 + dy ^ 2)

/-- The 1e-12 guard threshold of the offset loop. -/
def tinyLen : ℚ := 1 / 1000000000000

/-- Tangent at point i: forward difference at the two endpoints, central
difference in the interior. -/
def tangentAt (pts : List Q2) (i : ℕ) : Q2 :=
  if i = 0 then psub (pts.getD 1 (0, 0)) (pts.getD 0 (0, 0))
  else if i = pts.length - 1 then psub (pts.getD i (0, 0)) (pts.getD (i - 1) (0, 0))
  else psub (pts.getD (i + 1) (0, 0)) (pts.getD (i - 1) (0, 0))

/-- One iteration of the offset loop: skip if the tangent length is below
1e-12, else emit the left and right offset points.  The divisions here run
only after the guard, so they cannot divide by zero. -/
def offsetPair (pts : List Q2) (hw : ℚ) (i : ℕ) : Option (Q2 × Q2) :=
  let t := tangentAt pts i
  let len := hypotQ t.1 t.2
  if len < tinyLen then none
  else
    let dx := t.1 / len
    let dy := t.2 / len
    let nx := -dy * hw
    let ny := dx * hw
    let p := pts.getD i (0, 0)
    some ((p.1 + nx, p.2 + ny), (p.1 - nx, p.2 - ny))

def leftRight (pts : List Q2) (hw : ℚ) : List Q2 × List Q2 :=
  let prs := (List.range pts.length).filterMap (offsetPair pts hw)
  (prs.map Prod.fst, prs.map Prod.snd)

/-- Values of math.cos and math.sin at the end-cap and start-cap angles,
indexed by (cap_segments, i).  Purely positional data for the cap points. -/
structure TrigModel where
  endCos : ℕ → ℕ → ℚ
  endSin : ℕ → ℕ → ℚ
  startCos : ℕ → ℕ → ℚ
  startSin : ℕ → ℕ → ℚ

def zeroTrig : TrigModel := ⟨fun _ _ => 0, fun _ _ => 0, fun _ _ => 0, fun _ _ => 0⟩

/-- Cap points for i in range(1, cap_segments) around point p with unit
tangent (dx, dy). -/
def capList (cosF sinF : ℕ → ℕ → ℚ) (capSegments : ℕ) (p : Q2) (hw dx dy : ℚ) :
    List Q2 :=
  ((List.range capSegments).drop 1).map fun i =>
    (p.1 + hw * (dx * cosF capSegments i + dy * sinF capSegments i),
     p.2 + hw * (dy * cosF capSegments i - dx * sinF capSegments i))

inductive BufErr where
  | divByZero
  deriving DecidableEq

/-- Embedding of _buffer_path.  The offset loop is guarded, but the end-cap
and start-cap tangents are normalized by dividing by the raw segment length;
Python raises ZeroDivisionError exactly when that length is 0, modelled by
the two checks below (the end cap is computed first, as in the source). -/
def bufferPath (trig : TrigModel) (pts : List Q2) (hw : ℚ) (capSegments : ℕ) :
    Except BufErr (List Q2) :=
  if pts.length < 2 then Except.ok []
  else
    let lr := leftRight pts hw
    let n := pts.length
    let endT := psub (pts.getD (n - 1) (0, 0)) (pts.getD (n - 2) (0, 0))
    let endLen := hypotQ endT.1 endT.2
    if endLen = 0 then Except.error BufErr.divByZero
    else
      let endCap := capList trig.endCos trig.endSin capSegments
        (pts.getD (n - 1) (0, 0)) hw (endT.1 / endLen) (endT.2 / endLen)
      let stT := psub (pts.getD 1 (0, 0)) (pts.getD 0 (0, 0))
      let stLen := hypotQ stT.1 stT.2
      if stLen = 0 then Except.error BufErr.divByZero
      else
        let startCap := capList trig.startCos trig.startSin capSegments
          (pts.getD 0 (0, 0)) hw (stT.1 / stLen) (stT.2 / stLen)
        Except.ok (lr.1 ++ endCap ++ lr.2.reverse ++ startCap)

/-! Glyph table and text assembly, from logotext_geometry (lines 29-145).
Design units: cap height 10, inter-character gap 1.  Decimal design
coordinates are written as exact rationals (1.8 = 9/5 and so on). -/

structure Glyph where
  adv : ℚ
  outers : List (List Q2)
  holes : List (List Q2)
  deriving DecidableEq

/-- The fixed _GLYPHS table. -/
def glyphTable : Char → Option Glyph
  | 'T' => some ⟨7,
    [[(0, 10), (7, 10), (7, 41/5), (22/5, 41/5), (22/5, 0), (13/5, 0),
      (13/5, 41/5), (0, 41/5)]], []⟩
  | 'C' => some ⟨27/5,
    [[(0, 0), (27/5, 0), (27/5, 9/5), (9/5, 9/5), (9/5, 41/5), (27/5, 41/5),
      (27/5, 10), (0, 10)]], []⟩
  | 'r' => some ⟨19/5,
    [[(0, 0), (9/5, 0), (9/5, 26/5), (19/5, 26/5), (19/5, 7), (0, 7)]], []⟩
  | 'a' => some ⟨27/5,
    [[(0, 0), (27/5, 0), (27/5, 7), (0, 7)]],
    [[(9/5, 9/5), (18/5, 9/5), (18/5, 26/5), (9/5, 26/5)]]⟩
  | 'i' => some ⟨9/5,
    [[(0, 0), (9/5, 0), (9/5, 7), (0, 7)],
     [(0, 41/5), (9/5, 41/5), (9/5, 10), (0, 10)]], []⟩
  | 'l' => some ⟨9/5,
    [[(0, 0), (9/5, 0), (9/5, 10), (0, 10)]], []⟩
  | 'u' => some ⟨27/5,
    [[(0, 0), (27/5, 0), (27/5, 7), (18/5, 7), (18/5, 9/5), (9/5, 9/5),
      (9/5, 7), (0, 7)]], []⟩
  | 'e' => some ⟨27/5,
    [[(0, 0), (27/5, 0), (27/5, 13/5), (9/5, 13/5), (9/5, 22/5), (27/5, 22/5),
      (27/5, 7), (0, 7)]], []⟩
  | 'n' => some ⟨27/5,
    [[(0, 0), (9/5, 0), (9/5, 26/5), (18/5, 26/5), (18/5, 0), (27/5, 0),
      (27/5, 7), (0, 7)]], []⟩
  | 't' => some ⟨21/5,
    [[(0, 0), (9/5, 0), (9/5, 26/5), (21/5, 26/5), (21/5, 7), (9/5, 7),
      (9/5, 10), (0, 10)]], []⟩
  | _ => none

/-- Placement of one design polygon: (x*scale + x_offset, y*scale). -/
def placePoly (poly : List Q2) (xOff scale : ℚ) : List Q2 :=
  poly.map fun p => (p.1 * scale + xOff, p.2 * scale)

/-- The shape built for one character: its outer faces fused and its hole
faces cut, both already placed at the cursor. -/
structure CharShape where
  outers : List (List Q2)
  holes : List (List Q2)
  deriving DecidableEq

inductive TextErr where
  | unsupportedChar (c : Char)
  | emptyGlyph (c : Char)
  | noChars
  deriving DecidableEq

/-- Embedding of _build_glyph_face: fails for a character outside the table
(ValueError naming the character) or a glyph with no outer polygons. -/
def buildGlyphFace (c : Char) (xOff scale : ℚ) : Except TextErr CharShape :=
  match glyphTable c with
  | none => Except.error (TextErr.unsupportedChar c)
  | some g =>
    if g.outers = [] then Except.error (TextErr.emptyGlyph c)
    else Except.ok ⟨g.outers.map fun p => placePoly p xOff scale,
                    g.holes.map fun p => placePoly p xOff scale⟩

/-- The character loop of _create_text_shape: check table membership, build
the glyph face at the cursor, advance the cursor by
(advance_width + spacing 1) * scale. -/
def createTextGo (text : List Char) (scale cursorX : ℚ) :
    Except TextErr (List CharShape) :=
  match text with
  | [] => Except.ok []
  | c :: rest =>
    match glyphTable c with
    | none => Except.error (TextErr.unsupportedChar c)
    | some g =>
      match buildGlyphFace c cursorX scale with
      | Except.error e => Except.error e
      | Except.ok sh =>
        match createTextGo rest scale (cursorX + (g.adv + 1) * scale) with
        | Except.error e => Except.error e
        | Except.ok shs => Except.ok (sh :: shs)

/-- Embedding of _create_text_shape: scale = cap_height/10, cursor from 0;
the final fuse of the per-character shapes is their list. -/
def createTextShape (text : List Char) (capHeight : ℚ) :
    Except TextErr (List CharShape) :=
  match createTextGo text (capHeight / 10) 0 with
  | Except.error e => Except.error e
  | Except.ok [] => Except.error TextErr.noChars
  | Except.ok shs => Except.ok shs

/-- Cursor position before the k-th character, as the spec words it: the sum
of (advance_width + gap) * scale over the preceding characters. -/
def specCursor (text : List Char) (scale : ℚ) (k : ℕ) : ℚ :=
  (((text.take k).map fun c => ((glyphTable c).map Glyph.adv).getD 0 + 1).sum)
    * scale

/-! Python call binding for apply_logo, from logo_deboss.apply_logo
(lines 85-95) and its call sites in logo_command.py (lines 33-43 and
373-384). -/

/-- Parameter names of logo_deboss.apply_logo. -/
def applyLogoParams : List String :=
  ["body_shape", "face", "diameter", "total_depth", "mountain_ratio",
   "trail_ratio", "bolt_ratio", "x_offset", "y_offset"]

/-- Parameter names of logotext_deboss.apply_logotext. -/
def applyLogotextParams : List String :=
  ["body_shape", "face", "diameter", "total_depth", "mountain_ratio",
   "trail_ratio", "bolt_ratio", "text_ratio", "x_offset", "y_offset",
   "rotation"]

/-- Keyword arguments passed by both apply_logo call sites in
logo_command.py (the two positional arguments aside). -/
def logoCommandKwargs : List String :=
  ["diameter", "total_depth", "mountain_ratio", "trail_ratio", "bolt_ratio",
   "x_offset", "y_offset", "rotation"]

/-- Python call binding: without a **kwargs parameter, every keyword
argument must name a declared parameter, otherwise the call raises
TypeError before the function body runs. -/
def kwargsAccepted (params kwargs : List String) : Bool :=
  kwargs.all fun k => params.contains k

/-- Axis rotation of apply_logotext (lines 57-62): for truthy (nonzero)
rotation, U and V are rotated together around the normal; cosR/sinR stand
for math.cos and math.sin of the angle in radians. -/
def logotextAxes (u v : Vec3) (rotation cosR sinR : ℚ) : Vec3 × Vec3 :=
  if rotation ≠ 0 then
    (u.smul cosR + v.smul sinR, (u.neg).smul sinR + v.smul cosR)
  else (u, v)

/-- In-plane placement shift shared by both deboss operations:
center + x_offset * U + y_offset * V, applied after any axis rotation. -/
def offsetPlacement (center u v : Vec3) (xOff yOff : ℚ) : Vec3 :=
  center + u.smul xOff + v.smul yOff

/-! Shape-store model for the frame-effect claims (C7/C8).  Every Part shape
alive during one apply call is an entry of a store; Python variables hold
handles (list indices).  A method returning a new shape allocates a new
entry; the in-place methods transformShape and translate overwrite their
receiver's entry.  Shape payloads are symbolic terms - their 2D numerics
are covered by the value-level embeddings above. -/

inductive GVal where
  | docShape (tag : ℕ)
  | circleFace (dia : ℚ)
  | polyFace (tag : ℕ)
  | rectFace (r : Rect)
  | qrCompound (rs : List Rect)
  | common (a b : GVal)
  | cut (a b : GVal)
  | fuse (a b : GVal)
  | extrude (a : GVal) (dz : ℚ)
  | transformed (a : GVal)
  deriving DecidableEq

structure PartDoc where
  shapes : List GVal
  deriving DecidableEq

def getShape (d : PartDoc) (h : ℕ) : GVal := d.shapes.getD h (GVal.polyFace 0)

/-- Construction of a fresh shape object. -/
def allocShape (d : PartDoc) (v : GVal) : PartDoc × ℕ :=
  (⟨d.shapes ++ [v]⟩, d.shapes.length)

/-- Shape.copy(): a new object with the same value; the receiver is
untouched. -/
def copyShape (d : PartDoc) (h : ℕ) : PartDoc × ℕ := allocShape d (getShape d h)

/-- Shape.cut(other): returns a new shape, mutates neither operand. -/
def cutShape (d : PartDoc) (a b : ℕ) : PartDoc × ℕ :=
  allocShape d (GVal.cut (getShape d a) (getShape d b))

def fuseShape (d : PartDoc) (a b : ℕ) : PartDoc × ℕ :=
  allocShape d (GVal.fuse (getShape d a) (getShape d b))

def commonShape (d : PartDoc) (a b : ℕ) : PartDoc × ℕ :=
  allocShape d (GVal.common (getShape d a) (getShape d b))

def extrudeShape (d : PartDoc) (h : ℕ) (dz : ℚ) : PartDoc × ℕ :=
  allocShape d (GVal.extrude (getShape d h) dz)

/-- Shape.transformGeometry(mat): returns a transformed copy. -/
def transformGeomShape (d : PartDoc) (h : ℕ) : PartDoc × ℕ :=
  allocShape d (GVal.transformed (getShape d h))

/-- Shape.transformShape(mat): transforms the receiver in place and returns
it. -/
def transformShapeInPlace (d : PartDoc) (h : ℕ) : PartDoc × ℕ :=
  (⟨d.shapes.set h (GVal.transformed (getShape d h))⟩, h)

/-- Shape.translate(vec): also an in-place mutation of the receiver. -/
def translateInPlace (d : PartDoc) (h : ℕ) : PartDoc × ℕ :=
  (⟨d.shapes.set h (GVal.transformed (getShape d h))⟩, h)

inductive ApplyErr where
  | emptyMatrix
  | geom (e : GeomErr)
  | text (e : TextErr)
  deriving DecidableEq

/-- create_logo_faces at the store level: circle disc, then mountain / trail
/ bolt polygon faces (tags 0/1/2), each intersected with the circle. -/
def createLogoFacesDoc (d : PartDoc) (diameter : ℚ) :
    PartDoc × (ℕ × ℕ × ℕ × ℕ) :=
  let pc := allocShape d (GVal.circleFace diameter)
  let pm0 := allocShape pc.1 (GVal.polyFace 0)
  let pm := commonShape pm0.1 pm0.2 pc.2
  let pt0 := allocShape pm.1 (GVal.polyFace 1)
  let pt := commonShape pt0.1 pt0.2 pc.2
  let pb0 := allocShape pt.1 (GVal.polyFace 2)
  let pb := commonShape pb0.1 pb0.2 pc.2
  (pb.1, (pc.2, pm.2, pt.2, pb.2))

/-- Extrusion loop of apply_logo: skip layers under the epsilon, extrude
each kept layer then transformGeometry it (a new shape). -/
def extrudeLayersGeomDoc : PartDoc → List (ℕ × ℚ) → PartDoc × List ℕ
  | d, [] => (d, [])
  | d, (h, depth) :: rest =>
    if depth < depthEps then extrudeLayersGeomDoc d rest
    else
      let p1 := extrudeShape d h depth
      let p2 := transformGeomShape p1.1 p1.2
      let pr := extrudeLayersGeomDoc p2.1 rest
      (pr.1, p2.2 :: pr.2)

/-- Extrusion loop of apply_logotext: same, but with the in-place
transformShape. -/
def extrudeLayersShapeDoc : PartDoc → List (ℕ × ℚ) → PartDoc × List ℕ
  | d, [] => (d, [])
  | d, (h, depth) :: rest =>
    if depth < depthEps then extrudeLayersShapeDoc d rest
    else
      let p1 := extrudeShape d h depth
      let p2 := transformShapeInPlace p1.1 p1.2
      let pr := extrudeLayersShapeDoc p2.1 rest
      (pr.1, p2.2 :: pr.2)

/-- Sequential boolean cuts: result = result.cut(solid) for each solid. -/
def cutAllDoc : PartDoc → ℕ → List ℕ → PartDoc × ℕ
  | d, resH, [] => (d, resH)
  | d, resH, t :: ts =>
    let p := cutShape d resH t
    cutAllDoc p.1 p.2 ts

/-- Sequential fuses: result = result.fuse(s) for each s. -/
def fuseAllDoc : PartDoc → ℕ → List ℕ → PartDoc × ℕ
  | d, resH, [] => (d, resH)
  | d, resH, t :: ts =>
    let p := fuseShape d resH t
    fuseAllDoc p.1 p.2 ts

/-- Embedding of apply_logo at the store level: frame, 2D faces, layer
isolation, extrusion loop, copy of the base, sequential cuts. -/
def applyLogoDoc (d : PartDoc) (base : ℕ) (face : FaceModel)
    (diameter totalDepth mr tr br xOff yOff : ℚ) :
    PartDoc × Except ApplyErr ℕ :=
  match computeFaceFrameLogo face with
  | Except.error e => (d, Except.error (ApplyErr.geom e))
  | Except.ok fr =>
    let _placement := offsetPlacement fr.center fr.uAxis fr.vAxis xOff yOff
    let pf := createLogoFacesDoc d diameter
    let circleH := pf.2.1
    let mountainH := pf.2.2.1
    let trailH := pf.2.2.2.1
    let boltH := pf.2.2.2.2
    let ptr := cutShape pf.1 trailH boltH
    let pmt1 := cutShape ptr.1 mountainH trailH
    let pmt := cutShape pmt1.1 pmt1.2 boltH
    let pci1 := cutShape pmt.1 circleH mountainH
    let pci2 := cutShape pci1.1 pci1.2 trailH
    let pci := cutShape pci2.1 pci2.2 boltH
    let layers := [(pci.2, totalDepth), (pmt.2, totalDepth * mr),
                   (ptr.2, totalDepth * tr), (boltH, totalDepth * br)]
    let pex := extrudeLayersGeomDoc pci.1 layers
    let pcopy := copyShape pex.1 base
    let pres := cutAllDoc pcopy.1 pcopy.2 pex.2
    (pres.1, Except.ok pres.2)

/-- Face objects for the outer polygons of one glyph (tag 10). -/
def allocPolyFaces : PartDoc → List (List Q2) → PartDoc × List ℕ
  | d, [] => (d, [])
  | d, _ :: ps =>
    let p1 := allocShape d (GVal.polyFace 10)
    let pr := allocPolyFaces p1.1 ps
    (pr.1, p1.2 :: pr.2)

/-- Hole handling of _build_glyph_face: build each hole face (tag 11) and
cut it from the glyph. -/
def cutHolesDoc : PartDoc → ℕ → List (List Q2) → PartDoc × ℕ
  | d, resH, [] => (d, resH)
  | d, resH, _ :: hs =>
    let pf := allocShape d (GVal.polyFace 11)
    let pc := cutShape pf.1 resH pf.2
    cutHolesDoc pc.1 pc.2 hs

/-- _build_glyph_face at the store level. -/
def buildGlyphDoc (d : PartDoc) (c : Char) : PartDoc × Except ApplyErr ℕ :=
  match glyphTable c with
  | none => (d, Except.error (ApplyErr.text (TextErr.unsupportedChar c)))
  | some g =>
    let pf := allocPolyFaces d g.outers
    match pf.2 with
    | [] => (pf.1, Except.error (ApplyErr.text (TextErr.emptyGlyph c)))
    | h0 :: hs =>
      let pfu := fuseAllDoc pf.1 h0 hs
      let pho := cutHolesDoc pfu.1 pfu.2 g.holes
      (pho.1, Except.ok pho.2)

/-- Character loop of _create_text_shape at the store level. -/
def buildCharsDoc : PartDoc → List Char → PartDoc × Except ApplyErr (List ℕ)
  | d, [] => (d, Except.ok [])
  | d, c :: rest =>
    match glyphTable c with
    | none => (d, Except.error (ApplyErr.text (TextErr.unsupportedChar c)))
    | some _ =>
      match buildGlyphDoc d c with
      | (d1, Except.error e) => (d1, Except.error e)
      | (d1, Except.ok h) =>
        match buildCharsDoc d1 rest with
        | (d2, Except.error e) => (d2, Except.error e)
        | (d2, Except.ok hs) => (d2, Except.ok (h :: hs))

/-- _create_text_shape at the store level: per-character shapes fused left
to right. -/
def createTextShapeDoc (d : PartDoc) (text : List Char) :
    PartDoc × Except ApplyErr ℕ :=
  match buildCharsDoc d text with
  | (d1, Except.error e) => (d1, Except.error e)
  | (d1, Except.ok []) => (d1, Except.error (ApplyErr.text TextErr.noChars))
  | (d1, Except.ok (h :: hs)) =>
    let pfu := fuseAllDoc d1 h hs
    (pfu.1, Except.ok pfu.2)

/-- The fixed text of create_logotext_faces. -/
def trailCurrentText : List Char :=
  ['T', 'r', 'a', 'i', 'l', 'C', 'u', 'r', 'r', 'e', 'n', 't']

attribute [irreducible] trailCurrentText

/-- create_logotext_faces at the store level: the logo faces, the assembled
text, then the in-place vertical-centering translate of the text shape. -/
def createLogotextFacesDoc (d : PartDoc) (diameter : ℚ) :
    PartDoc × Except ApplyErr (ℕ × ℕ × ℕ × ℕ × ℕ) :=
  let pf := createLogoFacesDoc d diameter
  match createTextShapeDoc pf.1 trailCurrentText with
  | (d1, Except.error e) => (d1, Except.error e)
  | (d1, Except.ok textH) =>
    let ptr := translateInPlace d1 textH
    (ptr.1, Except.ok (pf.2.1, pf.2.2.1, pf.2.2.2.1, pf.2.2.2.2, ptr.2))

/-- Embedding of apply_logotext at the store level. -/
def applyLogotextDoc (d : PartDoc) (base : ℕ) (face : FaceModel)
    (diameter totalDepth mr tr br txr xOff yOff rotation cosR sinR : ℚ) :
    PartDoc × Except ApplyErr ℕ :=
  match computeFaceFrameLogo face with
  | Except.error e => (d, Except.error (ApplyErr.geom e))
  | Except.ok fr =>
    let axes := logotextAxes fr.uAxis fr.vAxis rotation cosR sinR
    let _placement := offsetPlacement fr.center axes.1 axes.2 xOff yOff
    match createLogotextFacesDoc d diameter with
    | (d1, Except.error e) => (d1, Except.error e)
    | (d1, Except.ok hs) =>
      let circleH := hs.1
      let mountainH := hs.2.1
      let trailH := hs.2.2.1
      let boltH := hs.2.2.2.1
      let textH := hs.2.2.2.2
      let ptr := cutShape d1 trailH boltH
      let pmt1 := cutShape ptr.1 mountainH trailH
      let pmt := cutShape pmt1.1 pmt1.2 boltH
      let pci1 := cutShape pmt.1 circleH mountainH
      let pci2 := cutShape pci1.1 pci1.2 trailH
      let pci := cutShape pci2.1 pci2.2 boltH
      let layers := [(pci.2, totalDepth), (pmt.2, totalDepth * mr),
                     (ptr.2, totalDepth * tr), (boltH, totalDepth * br),
                     (textH, totalDepth * txr)]
      let pex := extrudeLayersShapeDoc pci.1 layers
      let pcopy := copyShape pex.1 base
      let pres := cutAllDoc pcopy.1 pcopy.2 pex.2
      (pres.1, Except.ok pres.2)

/-- Rectangle face objects of _create_qr_solid. -/
def allocRectFaces : PartDoc → List Rect → PartDoc × List ℕ
  | d, [] => (d, [])
  | d, r :: rs =>
    let p1 := allocShape d (GVal.rectFace r)
    let pr := allocRectFaces p1.1 rs
    (pr.1, p1.2 :: pr.2)

/-- _create_qr_solid at the store level: nothing is allocated when the
matrix is empty or has no dark module (the rect list is computed before any
Part.Face is built). -/
def createQrSolidDoc (d : PartDoc) (m : List (List Bool))
    (qrSize height overlap : ℚ) : PartDoc × Option ℕ :=
  if m.length = 0 then (d, none)
  else if qrRects m = [] then (d, none)
  else
    let rs := (qrRects m).map (rectOf qrSize m.length)
    let pf := allocRectFaces d rs
    let pc := allocShape pf.1 (GVal.qrCompound rs)
    let pe := extrudeShape pc.1 pc.2 (height + overlap)
    (pe.1, some pe.2)

/-- Embedding of apply_qr at the store level (the matrix, produced by the
external qrcode library, is an input): build the solid, raise EmptyMatrix
before any boolean operation when it is None, otherwise transform it in
place, copy the base and fuse or cut. -/
def applyQrDoc (d : PartDoc) (base : ℕ) (face : FaceModel)
    (m : List (List Bool)) (qrSize height : ℚ) (embossB : Bool)
    (xOff yOff : ℚ) : PartDoc × Except ApplyErr ℕ :=
  match createQrSolidDoc d m qrSize height (1 / 100) with
  | (d1, none) => (d1, Except.error ApplyErr.emptyMatrix)
  | (d1, some solidH) =>
    match computeFaceFrameQr face with
    | Except.error e => (d1, Except.error (ApplyErr.geom e))
    | Except.ok fr =>
      let _placement := offsetPlacement fr.center fr.uAxis fr.vAxis xOff yOff
      let pt := transformShapeInPlace d1 solidH
      let pcopy := copyShape pt.1 base
      let pop := if embossB then fuseShape pcopy.1 pcopy.2 pt.2
                 else cutShape pcopy.1 pcopy.2 pt.2
      (pop.1, Except.ok pop.2)

/-- Store d2 extends store d on the first n entries. -/
def Pres (n : ℕ) (d d2 : PartDoc) : Prop :=
  n ≤ d2.shapes.length ∧ ∀ k, k < n → getShape d2 k = getShape d k

/-- Concrete store used by the C7/C8 witnesses: one document shape. -/
def sampleDoc : PartDoc := ⟨[GVal.docShape 0]⟩

/-- Planar face used by the C8 witness. -/
def flatFace : FaceModel :=
  { surface := SurfaceModel.plane ⟨0, 0, 1⟩
    normalAtMid := ⟨0, 0, 1⟩
    centerOfMass := ⟨0, 0, 0⟩ }

/-! Theorems.  First the helper lemmas about the run scanner. -/

theorem pairwise_cases {β : Type} {R : β → β → Prop} :
    ∀ {l : List β}, List.Pairwise R l → ∀ {a b : β}, a ∈ l → b ∈ l →
      a = b ∨ R a b ∨ R b a := by
  intro l
  induction l with
  | nil => intro _ a b ha _; simp at ha
  | cons x xs ih =>
    intro hl a b ha hb
    have hrel := (List.pairwise_cons.mp hl).1
    have htail := (List.pairwise_cons.mp hl).2
    rcases List.mem_cons.mp ha with rfl | ha2
    · rcases List.mem_cons.mp hb with rfl | hb2
      · exact Or.inl rfl
      · exact Or.inr (Or.inl (hrel _ hb2))
    · rcases List.mem_cons.mp hb with rfl | hb2
      · exact Or.inr (Or.inr (hrel _ ha2))
      · exact ih htail ha2 hb2

theorem runsGo_bounds :
    ∀ (l : List Bool) (i : ℕ) (st : Option ℕ), (∀ s, st = some s → s < i) →
      ∀ p ∈ runsGo l i st, st.getD i ≤ p.1 ∧ p.1 < p.2 ∧ p.2 ≤ i + l.length := by
  intro l
  induction l with
  | nil =>
    intro i st hst p hp
    match st with
    | none => simp [runsGo] at hp
    | some s =>
      simp only [runsGo, List.mem_singleton] at hp
      subst hp
      exact ⟨le_refl s, hst s rfl, by simp⟩
  | cons b rest ih =>
    intro i st hst p hp
    match st with
    | none =>
      cases b
      · have := ih (i + 1) none (by simp) p (by simpa [runsGo] using hp)
        simp only [Option.getD] at this ⊢
        simp only [List.length_cons]
        omega
      · have := ih (i + 1) (some i) (by intro s h; injection h with h; omega) p
          (by simpa [runsGo] using hp)
        simp only [Option.getD] at this ⊢
        simp only [List.length_cons]
        omega
    | some s =>
      have hsi : s < i := hst s rfl
      cases b
      · rcases List.mem_cons.mp (by simpa [runsGo] using hp :
            p ∈ (s, i) :: runsGo rest (i + 1) none) with rfl | hp2
        · exact ⟨le_refl s, hsi, by simp⟩
        · have := ih (i + 1) none (by simp) p hp2
          simp only [Option.getD] at this ⊢
          simp only [List.length_cons]
          omega
      · have := ih (i + 1) (some s) (by intro s2 h; injection h with h; omega) p
          (by simpa [runsGo] using hp)
        simp only [Option.getD] at this ⊢
        simp only [List.length_cons]
        omega

theorem runsGo_pairwise :
    ∀ (l : List Bool) (i : ℕ) (st : Option ℕ), (∀ s, st = some s → s < i) →
      List.Pairwise (fun p q : ℕ × ℕ => p.2 < q.1) (runsGo l i st) := by
  intro l
  induction l with
  | nil =>
    intro i st _
    match st with
    | none => simp [runsGo]
    | some s => simp [runsGo]
  | cons b rest ih =>
    intro i st hst
    match st with
    | none =>
      cases b
      · simpa [runsGo] using ih (i + 1) none (by simp)
      · simpa [runsGo] using ih (i + 1) (some i) (by intro s h; injection h with h; omega)
    | some s =>
      have hsi : s < i := hst s rfl
      cases b
      · show List.Pairwise _ ((s, i) :: runsGo rest (i + 1) none)
        refine List.Pairwise.cons ?_ (ih (i + 1) none (by simp))
        intro q hq
        have := runsGo_bounds rest (i + 1) none (by simp) q hq
        simp only [Option.getD] at this
        show i < q.1
        omega
      · simpa [runsGo] using ih (i + 1) (some s) (by intro s2 h; injection h with h; omega)

theorem runsGo_covered :
    ∀ (l : List Bool) (i : ℕ) (st : Option ℕ) (j : ℕ), (∀ s, st = some s → s < i) →
      (coveredRuns (runsGo l i st) j ↔
        ((∃ s, st = some s ∧ s ≤ j ∧ j < i) ∨
         (∃ k, k < l.length ∧ j = i + k ∧ l.getD k false = true))) := by
  intro l
  induction l with
  | nil =>
    intro i st j hst
    match st with
    | none => simp [runsGo, coveredRuns]
    | some s => simp [runsGo, coveredRuns]
  | cons b rest ih =>
    intro i st j hst
    match st with
    | none =>
      cases b
      · rw [show runsGo (false :: rest) i none = runsGo rest (i + 1) none from rfl,
            ih (i + 1) none j (by simp)]
        constructor
        · rintro (⟨s, hs, _⟩ | ⟨k, hk, rfl, hget⟩)
          · exact absurd hs (by simp)
          · exact Or.inr ⟨k + 1, by simp only [List.length_cons]; omega, by omega,
              by simpa using hget⟩
        · rintro (⟨s, hs, _⟩ | ⟨k, hk, rfl, hget⟩)
          · exact absurd hs (by simp)
          · cases k with
            | zero => simp at hget
            | succ k =>
              exact Or.inr ⟨k, by simp only [List.length_cons] at hk; omega, by omega,
                by simpa using hget⟩
      · rw [show runsGo (true :: rest) i none = runsGo rest (i + 1) (some i) from rfl,
            ih (i + 1) (some i) j (by intro s h; injection h with h; omega)]
        constructor
        · rintro (⟨s, hs, h1, h2⟩ | ⟨k, hk, rfl, hget⟩)
          · injection hs with hs; subst hs
            exact Or.inr ⟨0, by simp, by omega, by simp⟩
          · exact Or.inr ⟨k + 1, by simp only [List.length_cons]; omega, by omega,
              by simpa using hget⟩
        · rintro (⟨s, hs, _⟩ | ⟨k, hk, rfl, hget⟩)
          · exact absurd hs (by simp)
          · cases k with
            | zero => exact Or.inl ⟨i, rfl, by omega, by omega⟩
            | succ k =>
              exact Or.inr ⟨k, by simp only [List.length_cons] at hk; omega, by omega,
                by simpa using hget⟩
    | some s =>
      have hsi : s < i := hst s rfl
      cases b
      · rw [show runsGo (false :: rest) i (some s)
            = (s, i) :: runsGo rest (i + 1) none from rfl]
        constructor
        · rintro ⟨p, hp, hj1, hj2⟩
          rcases List.mem_cons.mp hp with rfl | hp2
          · exact Or.inl ⟨s, rfl, hj1, hj2⟩
          · have := (ih (i + 1) none j (by simp)).mp ⟨p, hp2, hj1, hj2⟩
            rcases this with ⟨s2, hs2, _⟩ | ⟨k, hk, rfl, hget⟩
            · exact absurd hs2 (by simp)
            · exact Or.inr ⟨k + 1, by simp only [List.length_cons]; omega, by omega,
                by simpa using hget⟩
        · rintro (⟨s2, hs2, h1, h2⟩ | ⟨k, hk, rfl, hget⟩)
          · injection hs2 with hs2; subst hs2
            exact ⟨(s, i), List.mem_cons_self _ _, h1, h2⟩
          · cases k with
            | zero => simp at hget
            | succ k =>
              obtain ⟨p, hp, hj⟩ := (ih (i + 1) none (i + (k + 1)) (by simp)).mpr
                (Or.inr ⟨k, by simp only [List.length_cons] at hk; omega, by omega,
                  by simpa using hget⟩)
              exact ⟨p, List.mem_cons_of_mem _ hp, hj⟩
      · rw [show runsGo (true :: rest) i (some s) = runsGo rest (i + 1) (some s) from rfl,
            ih (i + 1) (some s) j (by intro s2 h; injection h with h; omega)]
        constructor
        · rintro (⟨s2, hs2, h1, h2⟩ | ⟨k, hk, rfl, hget⟩)
          · injection hs2 with hs2; subst hs2
            by_cases hji : j < i
            · exact Or.inl ⟨s, rfl, h1, hji⟩
            · exact Or.inr ⟨0, by simp, by omega, by simp⟩
          · exact Or.inr ⟨k + 1, by simp only [List.length_cons]; omega, by omega,
              by simpa using hget⟩
        · rintro (⟨s2, hs2, h1, h2⟩ | ⟨k, hk, rfl, hget⟩)
          · injection hs2 with hs2; subst hs2
            exact Or.inl ⟨s, rfl, h1, by omega⟩
          · cases k with
            | zero => exact Or.inl ⟨s, rfl, by omega, by omega⟩
            | succ k =>
              exact Or.inr ⟨k, by simp only [List.length_cons] at hk; omega, by omega,
                by simpa using hget⟩

theorem runsGo_sum :
    ∀ (l : List Bool) (i : ℕ) (st : Option ℕ), (∀ s, st = some s → s < i) →
      ((runsGo l i st).map fun p => p.2 - p.1).sum
        = l.count true + (match st with | none => 0 | some s => i - s) := by
  intro l
  induction l with
  | nil =>
    intro i st hst
    match st with
    | none => simp [runsGo]
    | some s => simp [runsGo]
  | cons b rest ih =>
    intro i st hst
    match st with
    | none =>
      cases b
      · rw [show runsGo (false :: rest) i none = runsGo rest (i + 1) none from rfl,
            ih (i + 1) none (by simp)]
        simp [List.count_cons]
      · rw [show runsGo (true :: rest) i none = runsGo rest (i + 1) (some i) from rfl,
            ih (i + 1) (some i) (by intro s h; injection h with h; omega)]
        simp [List.count_cons]
    | some s =>
      have hsi : s < i := hst s rfl
      cases b
      · rw [show runsGo (false :: rest) i (some s)
              = (s, i) :: runsGo rest (i + 1) none from rfl]
        simp only [List.map_cons, List.sum_cons]
        rw [ih (i + 1) none (by simp)]
        simp [List.count_cons]
        omega
      · rw [show runsGo (true :: rest) i (some s) = runsGo rest (i + 1) (some s) from rfl,
            ih (i + 1) (some s) (by intro s2 h; injection h with h; omega)]
        simp [List.count_cons]
        omega

theorem rowRuns_covered (l : List Bool) (j : ℕ) :
    coveredRuns (rowRuns l) j ↔ (j < l.length ∧ l.getD j false = true) := by
  rw [rowRuns, runsGo_covered l 0 none j (by simp)]
  constructor
  · rintro (⟨s, hs, _⟩ | ⟨k, hk, rfl, hget⟩)
    · exact absurd hs (by simp)
    · rw [Nat.zero_add]
      exact ⟨hk, hget⟩
  · rintro ⟨hj, hget⟩
    exact Or.inr ⟨j, hj, by omega, hget⟩

theorem rowRuns_sum (l : List Bool) :
    ((rowRuns l).map fun p => p.2 - p.1).sum = l.count true := by
  have := runsGo_sum l 0 none (by simp)
  simpa [rowRuns] using this

theorem rowRuns_pairwise (l : List Bool) :
    List.Pairwise (fun p q : ℕ × ℕ => p.2 < q.1) (rowRuns l) :=
  runsGo_pairwise l 0 none (by simp)

theorem rowRuns_bounds (l : List Bool) (p : ℕ × ℕ) (hp : p ∈ rowRuns l) :
    p.1 < p.2 ∧ p.2 ≤ l.length := by
  have := runsGo_bounds l 0 none (by simp) p hp
  simp only [Option.getD] at this
  omega

theorem rowRuns_maximal (l : List Bool) (p : ℕ × ℕ) (hp : p ∈ rowRuns l) :
    (∀ j, p.1 ≤ j → j < p.2 → l.getD j false = true) ∧
    (p.1 = 0 ∨ l.getD (p.1 - 1) false = false) ∧
    (p.2 = l.length ∨ l.getD p.2 false = false) := by
  obtain ⟨hlt, hle⟩ := rowRuns_bounds l p hp
  refine ⟨?_, ?_, ?_⟩
  · intro j h1 h2
    exact ((rowRuns_covered l j).mp ⟨p, hp, h1, h2⟩).2
  · by_cases h0 : p.1 = 0
    · exact Or.inl h0
    · right
      by_contra htrue
      have hb : l.getD (p.1 - 1) false = true := by
        revert htrue; cases l.getD (p.1 - 1) false <;> simp
      obtain ⟨q, hq, hq1, hq2⟩ :=
        (rowRuns_covered l (p.1 - 1)).mpr ⟨by omega, hb⟩
      rcases pairwise_cases (rowRuns_pairwise l) hq hp with rfl | h | h <;> omega
  · by_cases hend : p.2 = l.length
    · exact Or.inl hend
    · right
      by_contra htrue
      have hb : l.getD p.2 false = true := by
        revert htrue; cases l.getD p.2 false <;> simp
      obtain ⟨q, hq, hq1, hq2⟩ :=
        (rowRuns_covered l p.2).mpr ⟨by omega, hb⟩
      rcases pairwise_cases (rowRuns_pairwise l) hq hp with rfl | h | h <;> omega

theorem qrRectsGo_mem :
    ∀ (rows : List (List Bool)) (r0 : ℕ) (t : ℕ × ℕ × ℕ),
      t ∈ qrRectsGo rows r0 ↔
        ∃ k, k < rows.length ∧ t.1 = r0 + k ∧ t.2 ∈ rowRuns (rows.getD k []) := by
  intro rows
  induction rows with
  | nil => intro r0 t; simp [qrRectsGo]
  | cons row rest ih =>
    intro r0 t
    obtain ⟨t1, t2⟩ := t
    simp only [qrRectsGo, List.mem_append, List.mem_map, ih (r0 + 1)]
    constructor
    · rintro (⟨p, hp, heq⟩ | ⟨k, hk, ht, hruns⟩)
      · injection heq with h1 h2
        subst h1; subst h2
        exact ⟨0, by simp, by simp, by simpa using hp⟩
      · exact ⟨k + 1, by simp only [List.length_cons]; omega,
          by simp only [ht]; omega, by simpa using hruns⟩
    · rintro ⟨k, hk, ht, hruns⟩
      cases k with
      | zero =>
        left
        refine ⟨t2, by simpa using hruns, ?_⟩
        have ht0 : t1 = r0 := by omega
        simp [ht0]
      | succ k =>
        right
        exact ⟨k, by simp only [List.length_cons] at hk; omega, by omega,
          by simpa using hruns⟩

theorem qrRects_mem (m : List (List Bool)) (t : ℕ × ℕ × ℕ) :
    t ∈ qrRects m ↔ (t.1 < m.length ∧ t.2 ∈ rowRuns (m.getD t.1 [])) := by
  rw [qrRects, qrRectsGo_mem m 0 t]
  constructor
  · rintro ⟨k, hk, ht, hr⟩
    have hk0 : t.1 = k := by omega
    rw [hk0]
    exact ⟨hk, hr⟩
  · rintro ⟨h1, h2⟩
    exact ⟨t.1, h1, by omega, h2⟩

theorem qrRects_covered (m : List (List Bool)) (r c : ℕ) (hr : r < m.length) :
    coveredRects (qrRects m) r c ↔
      (c < (m.getD r []).length ∧ moduleAt m r c = true) := by
  unfold coveredRects moduleAt
  constructor
  · rintro ⟨t, ht, hteq, h1, h2⟩
    have hm := (qrRects_mem m t).mp ht
    rw [hteq] at hm
    exact (rowRuns_covered (m.getD r []) c).mp ⟨t.2, hm.2, h1, h2⟩
  · rintro ⟨hc, hget⟩
    obtain ⟨p, hp, h1, h2⟩ := (rowRuns_covered (m.getD r []) c).mpr ⟨hc, hget⟩
    exact ⟨(r, p), (qrRects_mem m (r, p)).mpr ⟨hr, hp⟩, rfl, h1, h2⟩

theorem qrRectsGo_runsum :
    ∀ (rows : List (List Bool)) (r0 : ℕ),
      ((qrRectsGo rows r0).map fun t => t.2.2 - t.2.1).sum
        = (rows.map fun row => row.count true).sum := by
  intro rows
  induction rows with
  | nil => intro r0; simp [qrRectsGo]
  | cons row rest ih =>
    intro r0
    simp only [qrRectsGo, List.map_append, List.sum_append, List.map_map,
      List.map_cons, List.sum_cons]
    rw [ih (r0 + 1)]
    congr 1
    have h := rowRuns_sum row
    rw [← h]
    rfl

theorem rectArea_rectOf (qrSize : ℚ) (n : ℕ) (t : ℕ × ℕ × ℕ) (h : t.2.1 ≤ t.2.2) :
    rectArea (rectOf qrSize n t) = ((t.2.2 - t.2.1 : ℕ) : ℚ) * (qrSize / (n : ℚ)) ^ 2 := by
  unfold rectArea rectOf
  push_cast [h]
  ring

theorem sum_rectArea (qrSize : ℚ) (n : ℕ) :
    ∀ rects : List (ℕ × ℕ × ℕ), (∀ t ∈ rects, t.2.1 ≤ t.2.2) →
      ((rects.map fun t => rectArea (rectOf qrSize n t)).sum
        = (((rects.map fun t => t.2.2 - t.2.1).sum : ℕ) : ℚ) * (qrSize / (n : ℚ)) ^ 2) := by
  intro rects
  induction rects with
  | nil => intro _; simp
  | cons t ts ih =>
    intro hall
    simp only [List.map_cons, List.sum_cons]
    rw [ih fun u hu => hall u (List.mem_cons_of_mem _ hu),
      rectArea_rectOf qrSize n t (hall t (List.mem_cons_self _ _))]
    push_cast
    ring

theorem qrRectsGo_pairwise :
    ∀ (rows : List (List Bool)) (r0 : ℕ),
      List.Pairwise RectDisjoint (qrRectsGo rows r0) := by
  intro rows
  induction rows with
  | nil => intro r0; simp [qrRectsGo]
  | cons row rest ih =>
    intro r0
    simp only [qrRectsGo]
    rw [List.pairwise_append]
    refine ⟨?_, ih (r0 + 1), ?_⟩
    · refine List.Pairwise.map _ ?_ (rowRuns_pairwise row)
      intro p q hpq
      exact Or.inr (Or.inl (le_of_lt hpq))
    · intro a ha b hb
      obtain ⟨p, _, rfl⟩ := List.mem_map.mp ha
      obtain ⟨k, _, hb1, _⟩ := (qrRectsGo_mem rest (r0 + 1) b).mp hb
      left
      show r0 ≠ b.1
      omega

theorem rowRuns_nil_of_no_true (l : List Bool) (h : l.count true = 0) :
    rowRuns l = [] := by
  cases hr : rowRuns l with
  | nil => rfl
  | cons p ps =>
    exfalso
    have hsum := rowRuns_sum l
    rw [hr] at hsum
    have hb := rowRuns_bounds l p (by rw [hr]; exact List.mem_cons_self _ _)
    simp only [List.map_cons, List.sum_cons] at hsum
    omega

theorem qrRects_nil_of_empty (m : List (List Bool)) (h : trueCountM m = 0) :
    qrRects m = [] := by
  cases hq : qrRects m with
  | nil => rfl
  | cons t ts =>
    exfalso
    have ht : t ∈ qrRects m := by rw [hq]; exact List.mem_cons_self _ _
    obtain ⟨hr, hruns⟩ := (qrRects_mem m t).mp ht
    have hrow0 : (m.getD t.1 []).count true = 0 := by
      have hmem : m.getD t.1 [] ∈ m := by
        rw [List.getD_eq_getElem m [] hr]
        exact List.getElem_mem hr
      have := List.sum_eq_zero_iff.mp h
      exact this _ (List.mem_map.mpr ⟨_, hmem, rfl⟩)
    rw [rowRuns_nil_of_no_true _ hrow0] at hruns
    simp at hruns

theorem createQrSolid_none (m : List (List Bool)) (h : trueCountM m = 0)
    (qrSize height overlap : ℚ) :
    createQrSolid m qrSize height overlap = none := by
  unfold createQrSolid
  simp [qrRects_nil_of_empty m h]

theorem ratSqrt_pos (q : ℚ) (hq : 0 < q) : 0 < ratSqrt q := by
  unfold ratSqrt
  rw [if_neg (not_le.mpr hq)]
  apply div_pos
  · have hnum : 0 < q.num := Rat.num_pos.mpr hq
    have hnn : 0 < q.num.toNat := by omega
    have hs : 0 < Nat.sqrt q.num.toNat := Nat.sqrt_pos.mpr hnn
    exact_mod_cast hs
  · have hd : 0 < q.den := q.den_pos
    have hs : 0 < Nat.sqrt q.den := Nat.sqrt_pos.mpr hd
    exact_mod_cast hs

theorem ratSqrt_eq_zero_iff (q : ℚ) (hq : 0 ≤ q) : ratSqrt q = 0 ↔ q = 0 := by
  constructor
  · intro h
    by_contra hne
    exact absurd h (ne_of_gt (ratSqrt_pos q (lt_of_le_of_ne hq (Ne.symm hne))))
  · rintro rfl
    simp [ratSqrt]

theorem ratSqrt_one : ratSqrt (1 : ℚ) = 1 := by
  unfold ratSqrt
  norm_num

theorem hypotQ_eq_zero_iff (dx dy : ℚ) : hypotQ dx dy = 0 ↔ dx = 0 ∧ dy = 0 := by
  unfold hypotQ
  rw [ratSqrt_eq_zero_iff _ (by positivity)]
  constructor
  · intro h
    have h1 : dx ^ 2 = 0 := by nlinarith [sq_nonneg dx, sq_nonneg dy]
    have h2 : dy ^ 2 = 0 := by nlinarith [sq_nonneg dx, sq_nonneg dy]
    exact ⟨(pow_eq_zero_iff (by norm_num : (2 : ℕ) ≠ 0)).mp h1,
      (pow_eq_zero_iff (by norm_num : (2 : ℕ) ≠ 0)).mp h2⟩
  · rintro ⟨rfl, rfl⟩
    norm_num

theorem psub_eq_zero_iff (a b : Q2) : ((psub a b).1 = 0 ∧ (psub a b).2 = 0) ↔ a = b := by
  unfold psub
  dsimp only
  rw [Prod.ext_iff]
  constructor
  · rintro ⟨h1, h2⟩
    exact ⟨by linarith, by linarith⟩
  · rintro ⟨h1, h2⟩
    exact ⟨by linarith, by linarith⟩

theorem pres_refl (n : ℕ) (d : PartDoc) (h : n ≤ d.shapes.length) : Pres n d d :=
  ⟨h, fun _ _ => rfl⟩

theorem pres_trans {n : ℕ} {d1 d2 d3 : PartDoc} (h1 : Pres n d1 d2)
    (h2 : Pres n d2 d3) : Pres n d1 d3 :=
  ⟨h2.1, fun k hk => (h2.2 k hk).trans (h1.2 k hk)⟩

theorem alloc_pres (n : ℕ) (d : PartDoc) (v : GVal) (h : n ≤ d.shapes.length) :
    Pres n d (allocShape d v).1 ∧ n ≤ (allocShape d v).2 := by
  refine ⟨⟨?_, ?_⟩, h⟩
  · simp only [allocShape, List.length_append, List.length_cons, List.length_nil]
    omega
  · intro k hk
    simp only [getShape, allocShape]
    exact List.getD_append _ _ _ _ (by omega)

theorem copyShape_pres (n : ℕ) (d : PartDoc) (h : ℕ) (hn : n ≤ d.shapes.length) :
    Pres n d (copyShape d h).1 ∧ n ≤ (copyShape d h).2 :=
  alloc_pres n d _ hn

theorem cutShape_pres (n : ℕ) (d : PartDoc) (a b : ℕ) (hn : n ≤ d.shapes.length) :
    Pres n d (cutShape d a b).1 ∧ n ≤ (cutShape d a b).2 :=
  alloc_pres n d _ hn

theorem fuseShape_pres (n : ℕ) (d : PartDoc) (a b : ℕ) (hn : n ≤ d.shapes.length) :
    Pres n d (fuseShape d a b).1 ∧ n ≤ (fuseShape d a b).2 :=
  alloc_pres n d _ hn

theorem commonShape_pres (n : ℕ) (d : PartDoc) (a b : ℕ)
    (hn : n ≤ d.shapes.length) :
    Pres n d (commonShape d a b).1 ∧ n ≤ (commonShape d a b).2 :=
  alloc_pres n d _ hn

theorem extrudeShape_pres (n : ℕ) (d : PartDoc) (h : ℕ) (dz : ℚ)
    (hn : n ≤ d.shapes.length) :
    Pres n d (extrudeShape d h dz).1 ∧ n ≤ (extrudeShape d h dz).2 :=
  alloc_pres n d _ hn

theorem transformGeomShape_pres (n : ℕ) (d : PartDoc) (h : ℕ)
    (hn : n ≤ d.shapes.length) :
    Pres n d (transformGeomShape d h).1 ∧ n ≤ (transformGeomShape d h).2 :=
  alloc_pres n d _ hn

theorem transformShapeInPlace_pres (n : ℕ) (d : PartDoc) (h : ℕ)
    (hn : n ≤ d.shapes.length) (hh : n ≤ h) :
    Pres n d (transformShapeInPlace d h).1 ∧ n ≤ (transformShapeInPlace d h).2 := by
  refine ⟨⟨?_, ?_⟩, hh⟩
  · simp only [transformShapeInPlace, List.length_set]
    exact hn
  · intro k hk
    simp only [getShape, transformShapeInPlace, List.getD_eq_getElem?_getD]
    rw [List.getElem?_set_ne (by omega : h ≠ k)]

theorem translateInPlace_pres (n : ℕ) (d : PartDoc) (h : ℕ)
    (hn : n ≤ d.shapes.length) (hh : n ≤ h) :
    Pres n d (translateInPlace d h).1 ∧ n ≤ (translateInPlace d h).2 :=
  transformShapeInPlace_pres n d h hn hh

theorem cutAllDoc_pres (n : ℕ) :
    ∀ (ts : List ℕ) (d : PartDoc) (resH : ℕ), n ≤ d.shapes.length →
      Pres n d (cutAllDoc d resH ts).1 := by
  intro ts
  induction ts with
  | nil => intro d resH hn; exact pres_refl n d hn
  | cons t ts ih =>
    intro d resH hn
    simp only [cutAllDoc]
    exact pres_trans (cutShape_pres n d resH t hn).1
      (ih _ _ (cutShape_pres n d resH t hn).1.1)

theorem fuseAllDoc_pres (n : ℕ) :
    ∀ (ts : List ℕ) (d : PartDoc) (resH : ℕ), n ≤ d.shapes.length →
      Pres n d (fuseAllDoc d resH ts).1 ∧
        (n ≤ resH → n ≤ (fuseAllDoc d resH ts).2) := by
  intro ts
  induction ts with
  | nil => intro d resH hn; exact ⟨pres_refl n d hn, fun hr => hr⟩
  | cons t ts ih =>
    intro d resH hn
    simp only [fuseAllDoc]
    have h1 := fuseShape_pres n d resH t hn
    have h2 := ih (fuseShape d resH t).1 (fuseShape d resH t).2 h1.1.1
    exact ⟨pres_trans h1.1 h2.1, fun _ => h2.2 h1.2⟩

theorem cutHolesDoc_pres (n : ℕ) :
    ∀ (hs : List (List Q2)) (d : PartDoc) (resH : ℕ), n ≤ d.shapes.length →
      Pres n d (cutHolesDoc d resH hs).1 ∧
        (n ≤ resH → n ≤ (cutHolesDoc d resH hs).2) := by
  intro hs
  induction hs with
  | nil => intro d resH hn; exact ⟨pres_refl n d hn, fun hr => hr⟩
  | cons hole hs ih =>
    intro d resH hn
    simp only [cutHolesDoc]
    have h1 := alloc_pres n d (GVal.polyFace 11) hn
    have h2 := cutShape_pres n (allocShape d (GVal.polyFace 11)).1 resH
      (allocShape d (GVal.polyFace 11)).2 h1.1.1
    have h3 := ih (cutShape (allocShape d (GVal.polyFace 11)).1 resH
        (allocShape d (GVal.polyFace 11)).2).1
      (cutShape (allocShape d (GVal.polyFace 11)).1 resH
        (allocShape d (GVal.polyFace 11)).2).2 h2.1.1
    exact ⟨pres_trans h1.1 (pres_trans h2.1 h3.1), fun _ => h3.2 h2.2⟩

theorem allocPolyFaces_pres (n : ℕ) :
    ∀ (ps : List (List Q2)) (d : PartDoc), n ≤ d.shapes.length →
      Pres n d (allocPolyFaces d ps).1 ∧
        ∀ h ∈ (allocPolyFaces d ps).2, n ≤ h := by
  intro ps
  induction ps with
  | nil => intro d hn; exact ⟨pres_refl n d hn, by simp [allocPolyFaces]⟩
  | cons p ps ih =>
    intro d hn
    simp only [allocPolyFaces]
    have h1 := alloc_pres n d (GVal.polyFace 10) hn
    have h2 := ih _ h1.1.1
    refine ⟨pres_trans h1.1 h2.1, ?_⟩
    intro h hmem
    rcases List.mem_cons.mp hmem with rfl | hmem2
    · exact h1.2
    · exact h2.2 h hmem2

theorem allocRectFaces_pres (n : ℕ) :
    ∀ (rs : List Rect) (d : PartDoc), n ≤ d.shapes.length →
      Pres n d (allocRectFaces d rs).1 := by
  intro rs
  induction rs with
  | nil => intro d hn; exact pres_refl n d hn
  | cons r rs ih =>
    intro d hn
    simp only [allocRectFaces]
    have h1 := alloc_pres n d (GVal.rectFace r) hn
    exact pres_trans h1.1 (ih _ h1.1.1)

theorem extrudeLayersGeomDoc_pres (n : ℕ) :
    ∀ (layers : List (ℕ × ℚ)) (d : PartDoc), n ≤ d.shapes.length →
      Pres n d (extrudeLayersGeomDoc d layers).1 := by
  intro layers
  induction layers with
  | nil => intro d hn; exact pres_refl n d hn
  | cons l ls ih =>
    intro d hn
    obtain ⟨h, depth⟩ := l
    simp only [extrudeLayersGeomDoc]
    split
    · exact ih d hn
    · have h1 := extrudeShape_pres n d h depth hn
      have h2 := transformGeomShape_pres n _ (extrudeShape d h depth).2 h1.1.1
      exact pres_trans h1.1 (pres_trans h2.1 (ih _ h2.1.1))

theorem extrudeLayersShapeDoc_pres (n : ℕ) :
    ∀ (layers : List (ℕ × ℚ)) (d : PartDoc), n ≤ d.shapes.length →
      Pres n d (extrudeLayersShapeDoc d layers).1 := by
  intro layers
  induction layers with
  | nil => intro d hn; exact pres_refl n d hn
  | cons l ls ih =>
    intro d hn
    obtain ⟨h, depth⟩ := l
    simp only [extrudeLayersShapeDoc]
    split
    · exact ih d hn
    · have h1 := extrudeShape_pres n d h depth hn
      have h2 := transformShapeInPlace_pres n _ (extrudeShape d h depth).2
        h1.1.1 h1.2
      exact pres_trans h1.1 (pres_trans h2.1 (ih _ h2.1.1))

theorem pres_alloc_outer {n : ℕ} {d d2 : PartDoc} (v : GVal) (h : Pres n d d2) :
    Pres n d (allocShape d2 v).1 :=
  pres_trans h (alloc_pres n d2 v h.1).1

theorem pres_copy_outer {n : ℕ} {d d2 : PartDoc} (b : ℕ) (h : Pres n d d2) :
    Pres n d (copyShape d2 b).1 :=
  pres_trans h (copyShape_pres n d2 b h.1).1

theorem pres_cut_outer {n : ℕ} {d d2 : PartDoc} (a b : ℕ) (h : Pres n d d2) :
    Pres n d (cutShape d2 a b).1 :=
  pres_trans h (cutShape_pres n d2 a b h.1).1

theorem pres_fuse_outer {n : ℕ} {d d2 : PartDoc} (a b : ℕ) (h : Pres n d d2) :
    Pres n d (fuseShape d2 a b).1 :=
  pres_trans h (fuseShape_pres n d2 a b h.1).1

theorem pres_common_outer {n : ℕ} {d d2 : PartDoc} (a b : ℕ) (h : Pres n d d2) :
    Pres n d (commonShape d2 a b).1 :=
  pres_trans h (commonShape_pres n d2 a b h.1).1

theorem pres_extrude_outer {n : ℕ} {d d2 : PartDoc} (hh : ℕ) (dz : ℚ)
    (h : Pres n d d2) : Pres n d (extrudeShape d2 hh dz).1 :=
  pres_trans h (extrudeShape_pres n d2 hh dz h.1).1

theorem pres_inplace_outer {n : ℕ} {d d2 : PartDoc} {hh : ℕ} (hle : n ≤ hh)
    (h : Pres n d d2) : Pres n d (transformShapeInPlace d2 hh).1 :=
  pres_trans h (transformShapeInPlace_pres n d2 hh h.1 hle).1

theorem pres_translate_outer {n : ℕ} {d d2 : PartDoc} {hh : ℕ} (hle : n ≤ hh)
    (h : Pres n d d2) : Pres n d (translateInPlace d2 hh).1 :=
  pres_trans h (translateInPlace_pres n d2 hh h.1 hle).1

theorem pres_cutAll_outer {n : ℕ} {d d2 : PartDoc} (resH : ℕ) (ts : List ℕ)
    (h : Pres n d d2) : Pres n d (cutAllDoc d2 resH ts).1 :=
  pres_trans h (cutAllDoc_pres n ts d2 resH h.1)

theorem pres_extrudeGeom_outer {n : ℕ} {d d2 : PartDoc} (layers : List (ℕ × ℚ))
    (h : Pres n d d2) : Pres n d (extrudeLayersGeomDoc d2 layers).1 :=
  pres_trans h (extrudeLayersGeomDoc_pres n layers d2 h.1)

theorem pres_extrudeShape_outer {n : ℕ} {d d2 : PartDoc} (layers : List (ℕ × ℚ))
    (h : Pres n d d2) : Pres n d (extrudeLayersShapeDoc d2 layers).1 :=
  pres_trans h (extrudeLayersShapeDoc_pres n layers d2 h.1)

theorem createLogoFacesDoc_pres (n : ℕ) (d : PartDoc) (dia : ℚ)
    (hn : n ≤ d.shapes.length) :
    Pres n d (createLogoFacesDoc d dia).1 := by
  simp only [createLogoFacesDoc, commonShape]
  exact pres_alloc_outer _ (pres_alloc_outer _ (pres_alloc_outer _
    (pres_alloc_outer _ (pres_alloc_outer _ (pres_alloc_outer _
      (pres_alloc_outer _ (pres_refl n d hn)))))))

theorem pres_createLogoFaces_outer {n : ℕ} {d d2 : PartDoc} (dia : ℚ)
    (h : Pres n d d2) : Pres n d (createLogoFacesDoc d2 dia).1 :=
  pres_trans h (createLogoFacesDoc_pres n d2 dia h.1)

theorem buildGlyphDoc_pres (n : ℕ) (d : PartDoc) (c : Char)
    (hn : n ≤ d.shapes.length) :
    Pres n d (buildGlyphDoc d c).1 ∧
      ∀ h, (buildGlyphDoc d c).2 = Except.ok h → n ≤ h := by
  unfold buildGlyphDoc
  cases hgt : glyphTable c with
  | none => exact ⟨pres_refl n d hn, by intro h hh; simp at hh⟩
  | some g =>
    dsimp only
    have hpf := allocPolyFaces_pres n g.outers d hn
    cases hout : (allocPolyFaces d g.outers).2 with
    | nil =>
      dsimp only
      exact ⟨hpf.1, by intro h hh; simp at hh⟩
    | cons h0 hs =>
      dsimp only
      have hh0 : n ≤ h0 := hpf.2 h0 (by rw [hout]; exact List.mem_cons_self _ _)
      have hfu := fuseAllDoc_pres n hs (allocPolyFaces d g.outers).1 h0 hpf.1.1
      have hch := cutHolesDoc_pres n g.holes
        (fuseAllDoc (allocPolyFaces d g.outers).1 h0 hs).1
        (fuseAllDoc (allocPolyFaces d g.outers).1 h0 hs).2 hfu.1.1
      refine ⟨pres_trans hpf.1 (pres_trans hfu.1 hch.1), ?_⟩
      intro h hh
      obtain rfl := Except.ok.inj hh
      exact hch.2 (hfu.2 hh0)

theorem buildCharsDoc_pres (n : ℕ) :
    ∀ (text : List Char) (d : PartDoc), n ≤ d.shapes.length →
      Pres n d (buildCharsDoc d text).1 ∧
        ∀ hs, (buildCharsDoc d text).2 = Except.ok hs → ∀ h ∈ hs, n ≤ h := by
  intro text
  induction text with
  | nil =>
    intro d hn
    refine ⟨pres_refl n d hn, ?_⟩
    intro hs hh h hmem
    obtain rfl := Except.ok.inj hh
    simp at hmem
  | cons c rest ih =>
    intro d hn
    simp only [buildCharsDoc]
    cases hgt : glyphTable c with
    | none => exact ⟨pres_refl n d hn, by intro hs hh; simp at hh⟩
    | some g =>
      dsimp only
      have hbg := buildGlyphDoc_pres n d c hn
      cases hbd : buildGlyphDoc d c with
      | mk d1 res =>
        rw [hbd] at hbg
        cases res with
        | error e => exact ⟨hbg.1, by intro hs hh; simp at hh⟩
        | ok h =>
          dsimp only
          have hrec := ih d1 hbg.1.1
          cases hbc : buildCharsDoc d1 rest with
          | mk d2 res2 =>
            rw [hbc] at hrec
            cases res2 with
            | error e =>
              exact ⟨pres_trans hbg.1 hrec.1, by intro hs hh; simp at hh⟩
            | ok hs2 =>
              dsimp only
              refine ⟨pres_trans hbg.1 hrec.1, ?_⟩
              intro hs hh
              obtain rfl := Except.ok.inj hh
              intro h2 hmem
              rcases List.mem_cons.mp hmem with rfl | hm2
              · exact hbg.2 h2 rfl
              · exact hrec.2 hs2 rfl h2 hm2

theorem createTextShapeDoc_pres (n : ℕ) (d : PartDoc) (text : List Char)
    (hn : n ≤ d.shapes.length) :
    Pres n d (createTextShapeDoc d text).1 ∧
      ∀ h, (createTextShapeDoc d text).2 = Except.ok h → n ≤ h := by
  unfold createTextShapeDoc
  have hbc := buildCharsDoc_pres n text d hn
  cases hb : buildCharsDoc d text with
  | mk d1 res =>
    rw [hb] at hbc
    cases res with
    | error e => exact ⟨hbc.1, by intro h hh; simp at hh⟩
    | ok hs =>
      cases hs with
      | nil => exact ⟨hbc.1, by intro h hh; simp at hh⟩
      | cons h0 hs2 =>
        have hh0 : n ≤ h0 := hbc.2 _ rfl h0 (List.mem_cons_self _ _)
        have hfu := fuseAllDoc_pres n hs2 d1 h0 hbc.1.1
        refine ⟨pres_trans hbc.1 hfu.1, ?_⟩
        intro h hh
        obtain rfl := Except.ok.inj hh
        exact hfu.2 hh0

theorem createLogotextFacesDoc_pres (n : ℕ) (d : PartDoc) (dia : ℚ)
    (hn : n ≤ d.shapes.length) :
    Pres n d (createLogotextFacesDoc d dia).1 := by
  unfold createLogotextFacesDoc
  dsimp only
  have hlf := createLogoFacesDoc_pres n d dia hn
  have hts := createTextShapeDoc_pres n (createLogoFacesDoc d dia).1
    trailCurrentText hlf.1
  generalize hct : createTextShapeDoc (createLogoFacesDoc d dia).1
    trailCurrentText = p
  rw [hct] at hts
  obtain ⟨d1, res⟩ := p
  cases res with
    | error e => exact pres_trans hlf hts.1
    | ok textH =>
      exact pres_trans hlf (pres_trans hts.1
        (pres_translate_outer (hts.2 textH rfl) (pres_refl n d1 hts.1.1)))

theorem createQrSolidDoc_pres (n : ℕ) (d : PartDoc) (m : List (List Bool))
    (qrSize height overlap : ℚ) (hn : n ≤ d.shapes.length) :
    Pres n d (createQrSolidDoc d m qrSize height overlap).1 ∧
      ∀ h, (createQrSolidDoc d m qrSize height overlap).2 = some h → n ≤ h := by
  unfold createQrSolidDoc
  split
  · exact ⟨pres_refl n d hn, by intro h hh; simp at hh⟩
  · split
    · exact ⟨pres_refl n d hn, by intro h hh; simp at hh⟩
    · dsimp only
      have h1 := allocRectFaces_pres n ((qrRects m).map (rectOf qrSize m.length)) d hn
      refine ⟨pres_extrude_outer _ _ (pres_alloc_outer _ h1), ?_⟩
      intro h hh
      obtain rfl := Option.some.inj hh
      exact (pres_alloc_outer (GVal.qrCompound ((qrRects m).map (rectOf qrSize m.length))) h1).1

theorem applyLogoDoc_pres (n : ℕ) (d : PartDoc) (base : ℕ) (face : FaceModel)
    (dia td mr tr br x y : ℚ) (hn : n ≤ d.shapes.length) :
    Pres n d (applyLogoDoc d base face dia td mr tr br x y).1 := by
  unfold applyLogoDoc
  cases computeFaceFrameLogo face with
  | error e => exact pres_refl n d hn
  | ok fr =>
    dsimp only
    exact pres_cutAll_outer _ _ (pres_copy_outer _ (pres_extrudeGeom_outer _
      (pres_cut_outer _ _ (pres_cut_outer _ _ (pres_cut_outer _ _
        (pres_cut_outer _ _ (pres_cut_outer _ _ (pres_cut_outer _ _
          (pres_createLogoFaces_outer _ (pres_refl n d hn))))))))))

theorem applyLogotextDoc_pres (n : ℕ) (d : PartDoc) (base : ℕ)
    (face : FaceModel) (dia td mr tr br txr x y rotation cosR sinR : ℚ)
    (hn : n ≤ d.shapes.length) :
    Pres n d (applyLogotextDoc d base face dia td mr tr br txr x y rotation
      cosR sinR).1 := by
  unfold applyLogotextDoc
  cases computeFaceFrameLogo face with
  | error e => exact pres_refl n d hn
  | ok fr =>
    dsimp only
    have hfl := createLogotextFacesDoc_pres n d dia hn
    generalize hcf : createLogotextFacesDoc d dia = p
    rw [hcf] at hfl
    obtain ⟨d1, res⟩ := p
    cases res with
      | error e => exact hfl
      | ok hs =>
        exact pres_trans hfl (pres_cutAll_outer _ _ (pres_copy_outer _
          (pres_extrudeShape_outer _ (pres_cut_outer _ _ (pres_cut_outer _ _
            (pres_cut_outer _ _ (pres_cut_outer _ _ (pres_cut_outer _ _
              (pres_cut_outer _ _ (pres_refl n d1 hfl.1))))))))))

theorem applyQrDoc_pres (n : ℕ) (d : PartDoc) (base : ℕ) (face : FaceModel)
    (m : List (List Bool)) (qrSize height : ℚ) (embossB : Bool) (x y : ℚ)
    (hn : n ≤ d.shapes.length) :
    Pres n d (applyQrDoc d base face m qrSize height embossB x y).1 := by
  unfold applyQrDoc
  have hqs := createQrSolidDoc_pres n d m qrSize height (1 / 100) hn
  cases hq : createQrSolidDoc d m qrSize height (1 / 100) with
  | mk d1 res =>
    rw [hq] at hqs
    cases res with
    | none => exact hqs.1
    | some solidH =>
      cases computeFaceFrameQr face with
      | error e => exact hqs.1
      | ok fr =>
        dsimp only
        have hsol : n ≤ solidH := hqs.2 solidH rfl
        cases embossB
        · exact pres_trans hqs.1 (pres_cut_outer _ _ (pres_copy_outer _
            (pres_inplace_outer hsol (pres_refl n d1 hqs.1.1))))
        · exact pres_trans hqs.1 (pres_fuse_outer _ _ (pres_copy_outer _
            (pres_inplace_outer hsol (pres_refl n d1 hqs.1.1))))

/-! Theorems for the claims. -/

/-- C2: for an n-by-n module matrix with at least one True cell and positive
size, the row-run merge emits rectangles that (i) reconstruct the matrix
exactly when every module covered by a rectangle is marked, (ii) have total
area (number of True cells) times (size/n)^2, the rectangles being pairwise
disjoint so the sum is the union area, and (iii) each arise from one maximal
horizontal run of True cells at its row's Y band, with y2 = size/2 - row*ms
and y1 = size/2 - (row+1)*ms, so row 0 sits at the top edge and Y decreases
as the row index increases. -/
theorem qr_rasterizer_correct (m : List (List Bool)) (qrSize : ℚ)
    (hsq : ∀ row ∈ m, row.length = m.length)
    (hpos : 0 < qrSize) (hone : 0 < trueCountM m) :
    (∀ r c, r < m.length → c < m.length →
      (coveredRects (qrRects m) r c ↔ moduleAt m r c = true)) ∧
    (((qrRects m).map fun t => rectArea (rectOf qrSize m.length t)).sum
      = (trueCountM m : ℚ) * (qrSize / (m.length : ℚ)) ^ 2) ∧
    List.Pairwise RectDisjoint (qrRects m) ∧
    (∀ t ∈ qrRects m,
      t.1 < m.length ∧ t.2.1 < t.2.2 ∧ t.2.2 ≤ m.length ∧
      (rectOf qrSize m.length t).y2
        = qrSize / 2 - (t.1 : ℚ) * (qrSize / (m.length : ℚ)) ∧
      (rectOf qrSize m.length t).y1
        = qrSize / 2 - ((t.1 : ℚ) + 1) * (qrSize / (m.length : ℚ)) ∧
      (∀ j, t.2.1 ≤ j → j < t.2.2 → moduleAt m t.1 j = true) ∧
      (t.2.1 = 0 ∨ moduleAt m t.1 (t.2.1 - 1) = false) ∧
      (t.2.2 = m.length ∨ moduleAt m t.1 t.2.2 = false)) := by
  have hrowlen : ∀ r, r < m.length → (m.getD r []).length = m.length := by
    intro r hr
    refine hsq _ ?_
    rw [List.getD_eq_getElem m [] hr]
    exact List.getElem_mem hr
  refine ⟨?_, ?_, ?_, ?_⟩
  · intro r c hr hc
    constructor
    · intro h
      exact ((qrRects_covered m r c hr).mp h).2
    · intro h
      refine (qrRects_covered m r c hr).mpr ⟨?_, h⟩
      rw [hrowlen r hr]
      exact hc
  · have hb : ∀ t ∈ qrRects m, t.2.1 ≤ t.2.2 := fun t ht =>
      le_of_lt (rowRuns_bounds _ _ ((qrRects_mem m t).mp ht).2).1
    rw [sum_rectArea qrSize m.length (qrRects m) hb]
    congr 2
    rw [qrRects, qrRectsGo_runsum]
    rfl
  · exact qrRectsGo_pairwise m 0
  · intro t ht
    obtain ⟨hr, hruns⟩ := (qrRects_mem m t).mp ht
    obtain ⟨hlt, hle⟩ := rowRuns_bounds _ _ hruns
    obtain ⟨hall, hpred, hsucc⟩ := rowRuns_maximal _ _ hruns
    have hrl := hrowlen t.1 hr
    refine ⟨hr, hlt, by omega, rfl, rfl, hall, hpred, ?_⟩
    rcases hsucc with h | h
    · exact Or.inl (by omega)
    · exact Or.inr h

/-- Witness for C2 at a concrete 3x3 matrix with size 3. -/
theorem qr_rasterizer_witness :
    (∀ row ∈ sampleMatrix, row.length = sampleMatrix.length) ∧
    ((0 : ℚ) < 3) ∧ (0 < trueCountM sampleMatrix) ∧
    ((∀ r c, r < sampleMatrix.length → c < sampleMatrix.length →
      (coveredRects (qrRects sampleMatrix) r c ↔ moduleAt sampleMatrix r c = true)) ∧
    (((qrRects sampleMatrix).map fun t =>
        rectArea (rectOf 3 sampleMatrix.length t)).sum
      = (trueCountM sampleMatrix : ℚ) * ((3 : ℚ) / (sampleMatrix.length : ℚ)) ^ 2) ∧
    List.Pairwise RectDisjoint (qrRects sampleMatrix) ∧
    (∀ t ∈ qrRects sampleMatrix,
      t.1 < sampleMatrix.length ∧ t.2.1 < t.2.2 ∧ t.2.2 ≤ sampleMatrix.length ∧
      (rectOf 3 sampleMatrix.length t).y2
        = (3 : ℚ) / 2 - (t.1 : ℚ) * ((3 : ℚ) / (sampleMatrix.length : ℚ)) ∧
      (rectOf 3 sampleMatrix.length t).y1
        = (3 : ℚ) / 2 - ((t.1 : ℚ) + 1) * ((3 : ℚ) / (sampleMatrix.length : ℚ)) ∧
      (∀ j, t.2.1 ≤ j → j < t.2.2 → moduleAt sampleMatrix t.1 j = true) ∧
      (t.2.1 = 0 ∨ moduleAt sampleMatrix t.1 (t.2.1 - 1) = false) ∧
      (t.2.2 = sampleMatrix.length ∨ moduleAt sampleMatrix t.1 t.2.2 = false))) :=
  ⟨by decide, by norm_num, by decide,
   qr_rasterizer_correct sampleMatrix 3 (by decide) (by norm_num) (by decide)⟩

/-- C1: with priority bolt > trail > mountain > circle, the isolated layers
(bolt unchanged; trail minus bolt; mountain minus trail minus bolt; circle
minus mountain minus trail minus bolt) have pairwise empty intersections and
their union equals the union of the four original input shapes. -/
theorem layer_isolation_disjoint_covering (f : LogoFaces α) :
    boltLayer f ∩ trailLayer f = ∅ ∧
    boltLayer f ∩ mountainLayer f = ∅ ∧
    boltLayer f ∩ circleLayer f = ∅ ∧
    trailLayer f ∩ mountainLayer f = ∅ ∧
    trailLayer f ∩ circleLayer f = ∅ ∧
    mountainLayer f ∩ circleLayer f = ∅ ∧
    circleLayer f ∪ mountainLayer f ∪ trailLayer f ∪ boltLayer f
      = f.circle ∪ f.mountain ∪ f.trail ∪ f.bolt := by
  refine ⟨?_, ?_, ?_, ?_, ?_, ?_, ?_⟩ <;> ext a <;>
    simp only [boltLayer, trailLayer, mountainLayer, circleLayer,
      Finset.mem_inter, Finset.mem_sdiff, Finset.mem_union,
      Finset.not_mem_empty, iff_false, not_and, not_not] <;>
    tauto

/-- Witness for C1 at a concrete collection of faces. -/
theorem layer_isolation_witness :
    boltLayer sampleFaces ∩ trailLayer sampleFaces = ∅ ∧
    boltLayer sampleFaces ∩ mountainLayer sampleFaces = ∅ ∧
    boltLayer sampleFaces ∩ circleLayer sampleFaces = ∅ ∧
    trailLayer sampleFaces ∩ mountainLayer sampleFaces = ∅ ∧
    trailLayer sampleFaces ∩ circleLayer sampleFaces = ∅ ∧
    mountainLayer sampleFaces ∩ circleLayer sampleFaces = ∅ ∧
    circleLayer sampleFaces ∪ mountainLayer sampleFaces ∪ trailLayer sampleFaces
        ∪ boltLayer sampleFaces
      = sampleFaces.circle ∪ sampleFaces.mountain ∪ sampleFaces.trail
        ∪ sampleFaces.bolt :=
  layer_isolation_disjoint_covering sampleFaces

/-- C10: the extrusion loop of both deboss operations keeps exactly the
layers whose computed depth reaches 1e-4 mm, and a kept layer is extruded by
Vector(0, 0, depth) for exactly its computed depth. -/
theorem depth_filter_correct (td mr tr br txr d : ℚ) (nm : String) :
    ((Extrusion.mk nm d ∈ cuttingExtrusions (logoLayerDepths td mr tr br)) ↔
      ((nm, d) ∈ logoLayerDepths td mr tr br ∧ depthEps ≤ d)) ∧
    ((Extrusion.mk nm d ∈ cuttingExtrusions (logotextLayerDepths td mr tr br txr)) ↔
      ((nm, d) ∈ logotextLayerDepths td mr tr br txr ∧ depthEps ≤ d)) := by
  have key : ∀ layers : List (String × ℚ),
      (Extrusion.mk nm d ∈ cuttingExtrusions layers) ↔
        ((nm, d) ∈ layers ∧ depthEps ≤ d) := by
    intro layers
    simp only [cuttingExtrusions, List.mem_filterMap]
    constructor
    · rintro ⟨⟨nm1, d1⟩, hmem, hval⟩
      by_cases hlt : d1 < depthEps
      · simp [hlt] at hval
      · simp [hlt] at hval
        obtain ⟨h1, h2⟩ := hval
        subst h1; subst h2
        exact ⟨hmem, not_lt.mp hlt⟩
    · rintro ⟨hmem, hge⟩
      exact ⟨(nm, d), hmem, by simp [not_lt.mpr hge]⟩
  exact ⟨key _, key _⟩

/-- C5 counterexample: for matrix [[true]], size 1, height 1, overlap 1/100,
the compound starts at Z = -overlap but its top is Z = 1 = height, not
height + overlap = 101/100 as the claim states. -/
theorem qr_solid_top_counterexample :
    (createQrSolid [[true]] 1 1 (1 / 100)).map zTop = some 1 ∧
    ((1 : ℚ) ≠ 1 + 1 / 100) := by
  have hr : qrRects [[true]] = [(0, 0, 1)] := rfl
  constructor
  · simp only [createQrSolid, hr]
    norm_num [zTop]
  · norm_num

/-- C5 amended: whenever _create_qr_solid returns a solid, the compound spans
exactly from Z = -overlap to Z = height in the local frame (the faces are
built at z = -overlap and extruded by height + overlap). -/
theorem qr_solid_span (m : List (List Bool)) (qrSize height overlap : ℚ)
    (s : QrSolid) (h : createQrSolid m qrSize height overlap = some s) :
    s.zBase = -overlap ∧ zTop s = height := by
  unfold createQrSolid at h
  split at h
  · exact absurd h (by simp)
  · split at h
    · exact absurd h (by simp)
    · obtain rfl := Option.some.inj h
      refine ⟨rfl, ?_⟩
      show -overlap + (height + overlap) = height
      ring

/-- Witness for the amended C5 at a concrete matrix. -/
theorem qr_solid_span_witness :
    createQrSolid [[true]] 1 1 (1 / 100)
        = some ⟨[⟨-(1/2), -(1/2), 1/2, 1/2⟩], -(1 / 100), 1 + 1 / 100⟩ ∧
    (⟨[⟨-(1/2), -(1/2), 1/2, 1/2⟩], -(1 / 100), 1 + 1 / 100⟩ : QrSolid).zBase
        = -(1 / 100) ∧
    zTop ⟨[⟨-(1/2), -(1/2), 1/2, 1/2⟩], -(1 / 100), 1 + 1 / 100⟩ = 1 := by
  have hr : qrRects [[true]] = [(0, 0, 1)] := rfl
  have h : createQrSolid [[true]] 1 1 (1 / 100)
      = some ⟨[⟨-(1/2), -(1/2), 1/2, 1/2⟩], -(1 / 100), 1 + 1 / 100⟩ := by
    simp only [createQrSolid, hr]
    norm_num [rectOf, Rect.mk.injEq]
  exact ⟨h, qr_solid_span [[true]] 1 1 (1 / 100) _ h⟩

/-- C4 (code bug): the plane-frame extraction contains no planarity check:
on a cylindrical (non-planar) face both _compute_face_frame variants
silently return a frame instead of failing, the logo variant via the
cylinder's Axis attribute, the QR variant via the sampled midpoint normal;
yet the logo variant's docstring promises a ValueError for non-planar
faces. -/
theorem nonplanar_face_not_rejected :
    cylFace.isPlanar = false ∧
    computeFaceFrameLogo cylFace
      = Except.ok ⟨⟨0, 0, 0⟩, ⟨0, 1, 0⟩, ⟨-1, 0, 0⟩, ⟨0, 0, 1⟩⟩ ∧
    computeFaceFrameQr cylFace
      = Except.ok ⟨⟨0, 0, 0⟩, ⟨0, 0, 1⟩, ⟨0, -1, 0⟩, ⟨1, 0, 0⟩⟩ := by
  refine ⟨rfl, ?_, ?_⟩
  · unfold computeFaceFrameLogo
    norm_num [cylFace, SurfaceModel.hasAxisAttr, SurfaceModel.axis, seedFor,
      Vec3.cross, normalizeV, vlen, Vec3.normSq, Vec3.smul, ratSqrt_one]
  · unfold computeFaceFrameQr
    norm_num [cylFace, seedFor, Vec3.cross, normalizeV, vlen, Vec3.normSq,
      Vec3.smul, ratSqrt_one]

/-- C6 counterexample: the centerline [(0,0),(0,0),(1,0)] has at least two
points and a positive half-width; its degenerate first segment is skipped by
the offset-loop guard, but the start-cap tangent normalization divides by
the length of that zero segment, so the code divides by zero. -/
theorem buffer_path_divzero_counterexample :
    bufferPath zeroTrig [(0, 0), (0, 0), (1, 0)] (3 / 2) 8
      = Except.error BufErr.divByZero ∧
    ((0 : ℚ) < 3 / 2) ∧
    2 ≤ ([((0 : ℚ), (0 : ℚ)), (0, 0), (1, 0)] : List Q2).length := by
  refine ⟨?_, by norm_num, by simp⟩
  norm_num [bufferPath, psub, hypotQ, ratSqrt_one, ratSqrt]

/-- C6 amended: the offset loop skips degenerate zero-length segments behind
its guard, but the end-cap and start-cap tangent normalizations divide by
the raw first/last segment length without a guard; whenever those two
segments are nonzero (for any centerline of at least two points and any
half-width), no division by zero occurs and an outline is returned. -/
theorem buffer_path_safe (trig : TrigModel) (pts : List Q2) (hw : ℚ)
    (capSegments : ℕ) (h2 : 2 ≤ pts.length)
    (hst : pts.getD 0 (0, 0) ≠ pts.getD 1 (0, 0))
    (hend : pts.getD (pts.length - 2) (0, 0) ≠ pts.getD (pts.length - 1) (0, 0)) :
    ∃ outline, bufferPath trig pts hw capSegments = Except.ok outline := by
  simp only [bufferPath]
  split
  · omega
  · split
    · next hcond =>
      exfalso
      obtain ⟨ha, hb⟩ := (hypotQ_eq_zero_iff _ _).mp hcond
      exact hend ((psub_eq_zero_iff _ _).mp ⟨ha, hb⟩).symm
    · split
      · next hcond =>
        exfalso
        obtain ⟨ha, hb⟩ := (hypotQ_eq_zero_iff _ _).mp hcond
        exact hst ((psub_eq_zero_iff _ _).mp ⟨ha, hb⟩).symm
      · exact ⟨_, rfl⟩

/-- Witness for the amended C6 at a concrete two-point centerline. -/
theorem buffer_path_safe_witness :
    2 ≤ ([((0 : ℚ), (0 : ℚ)), (1, 0)] : List Q2).length ∧
    ([((0 : ℚ), (0 : ℚ)), (1, 0)] : List Q2).getD 0 (0, 0)
      ≠ ([((0 : ℚ), (0 : ℚ)), (1, 0)] : List Q2).getD 1 (0, 0) ∧
    ([((0 : ℚ), (0 : ℚ)), (1, 0)] : List Q2).getD
        (([((0 : ℚ), (0 : ℚ)), (1, 0)] : List Q2).length - 2) (0, 0)
      ≠ ([((0 : ℚ), (0 : ℚ)), (1, 0)] : List Q2).getD
        (([((0 : ℚ), (0 : ℚ)), (1, 0)] : List Q2).length - 1) (0, 0) ∧
    ∃ outline, bufferPath zeroTrig [(0, 0), (1, 0)] 1 8 = Except.ok outline :=
  ⟨by simp, by norm_num [Prod.ext_iff], by norm_num [Prod.ext_iff],
   buffer_path_safe zeroTrig [(0, 0), (1, 0)] 1 8 (by simp)
     (by norm_num [Prod.ext_iff]) (by norm_num [Prod.ext_iff])⟩

theorem glyphTable_outers_nonempty (c : Char) (g : Glyph)
    (h : glyphTable c = some g) : g.outers ≠ [] := by
  unfold glyphTable at h
  split at h <;>
    first
      | (obtain rfl := Option.some.inj h; intro hc; exact List.noConfusion hc)
      | exact Option.noConfusion h

theorem createTextGo_unsupported :
    ∀ (text : List Char) (scale x0 : ℚ) (c : Char),
      text.find? (fun ch => (glyphTable ch).isNone) = some c →
      createTextGo text scale x0 = Except.error (TextErr.unsupportedChar c) := by
  intro text
  induction text with
  | nil => intro scale x0 c h; simp at h
  | cons d rest ih =>
    intro scale x0 c h
    by_cases hd : (glyphTable d).isNone
    · rw [List.find?_cons_of_pos _ (by simpa using hd)] at h
      obtain rfl := Option.some.inj h
      cases hgt : glyphTable d with
      | none => simp [createTextGo, hgt]
      | some g => rw [hgt] at hd; simp at hd
    · rw [List.find?_cons_of_neg _ (by simpa using hd)] at h
      cases hgt : glyphTable d with
      | none => rw [hgt] at hd; simp at hd
      | some g =>
        have hne := glyphTable_outers_nonempty d g hgt
        simp [createTextGo, hgt, buildGlyphFace, hne, ih scale _ c h]

theorem createTextGo_ok :
    ∀ (text : List Char) (scale x0 : ℚ),
      (∀ c ∈ text, (glyphTable c).isSome) →
      ∃ shs, createTextGo text scale x0 = Except.ok shs ∧
        shs.length = text.length ∧
        ∀ k, k < text.length →
          buildGlyphFace (text.getD k 'T') (x0 + specCursor text scale k) scale
            = Except.ok (shs.getD k ⟨[], []⟩) := by
  intro text
  induction text with
  | nil =>
    intro scale x0 _
    exact ⟨[], rfl, rfl, by intro k hk; simp at hk⟩
  | cons d rest ih =>
    intro scale x0 hall
    obtain ⟨g, hgt⟩ :=
      Option.isSome_iff_exists.mp (hall d (List.mem_cons_self _ _))
    have hne := glyphTable_outers_nonempty d g hgt
    obtain ⟨shs, hgo, hlen, hpos⟩ := ih scale (x0 + (g.adv + 1) * scale)
      (fun c hc => hall c (List.mem_cons_of_mem _ hc))
    have hbuild : buildGlyphFace d x0 scale
        = Except.ok ⟨g.outers.map fun p => placePoly p x0 scale,
                     g.holes.map fun p => placePoly p x0 scale⟩ := by
      simp [buildGlyphFace, hgt, hne]
    refine ⟨⟨g.outers.map fun p => placePoly p x0 scale,
             g.holes.map fun p => placePoly p x0 scale⟩ :: shs,
      by simp [createTextGo, hgt, hbuild, hgo], by simp [hlen], ?_⟩
    intro k hk
    cases k with
    | zero =>
      simpa [specCursor] using hbuild
    | succ k =>
      have hk2 : k < rest.length := by simpa using hk
      have hstep := hpos k hk2
      have hcur : x0 + specCursor (d :: rest) scale (k + 1)
          = x0 + (g.adv + 1) * scale + specCursor rest scale k := by
        simp [specCursor, List.take_succ_cons, hgt]
        ring
      simp only [List.getD_cons_succ, hcur]
      exact hstep

/-- C9: text assembly rejects a string containing an unsupported character
with a hard error naming the first such character and yields no geometry,
while a nonempty string of supported characters produces one shape per
character, the k-th glyph placed at cursor position
(sum over preceding characters of (advance_width + gap)) * scale. -/
theorem text_assembly_correct (text : List Char) (capHeight : ℚ) :
    (∀ c, text.find? (fun ch => (glyphTable ch).isNone) = some c →
      createTextShape text capHeight = Except.error (TextErr.unsupportedChar c)) ∧
    ((∀ c ∈ text, (glyphTable c).isSome) → text ≠ [] →
      ∃ shs, createTextShape text capHeight = Except.ok shs ∧
        shs.length = text.length ∧
        ∀ k, k < text.length →
          buildGlyphFace (text.getD k 'T')
              (specCursor text (capHeight / 10) k) (capHeight / 10)
            = Except.ok (shs.getD k ⟨[], []⟩)) := by
  constructor
  · intro c h
    unfold createTextShape
    rw [createTextGo_unsupported text _ 0 c h]
  · intro hall hne
    obtain ⟨shs, hgo, hlen, hpos⟩ := createTextGo_ok text (capHeight / 10) 0 hall
    refine ⟨shs, ?_, hlen, ?_⟩
    · unfold createTextShape
      rw [hgo]
      cases shs with
      | nil =>
        exfalso
        exact hne (List.length_eq_zero.mp hlen.symm)
      | cons a as => rfl
    · intro k hk
      have := hpos k hk
      rw [zero_add] at this
      exact this

/-- Witness for C9: the unsupported character B is rejected by name, and the
string Ta is assembled with the cursor advancing per character. -/
theorem text_assembly_witness :
    (['B'].find? (fun ch => (glyphTable ch).isNone) = some 'B') ∧
    createTextShape ['B'] 10 = Except.error (TextErr.unsupportedChar 'B') ∧
    (∀ c ∈ (['T', 'a'] : List Char), (glyphTable c).isSome) ∧
    (['T', 'a'] : List Char) ≠ [] ∧
    (∃ shs, createTextShape ['T', 'a'] 10 = Except.ok shs ∧
      shs.length = (['T', 'a'] : List Char).length ∧
      ∀ k, k < (['T', 'a'] : List Char).length →
        buildGlyphFace ((['T', 'a'] : List Char).getD k 'T')
            (specCursor ['T', 'a'] (10 / 10) k) (10 / 10)
          = Except.ok (shs.getD k ⟨[], []⟩)) := by
  have hfind : (['B'] : List Char).find? (fun ch => (glyphTable ch).isNone)
      = some 'B' := by decide
  exact ⟨hfind, (text_assembly_correct ['B'] 10).1 'B' hfind, by decide,
    by simp, (text_assembly_correct ['T', 'a'] 10).2 (by decide) (by simp)⟩

/-- C3 (code bug): apply_logo declares no rotation parameter, while both
call sites in logo_command.py pass rotation as a keyword argument, so every
UI invocation raises TypeError; the sibling apply_logotext does declare
rotation and, for nonzero rotation, rotates U and V together around the
normal before the in-plane (x_offset, y_offset) shift of the frame origin. -/
theorem logo_rotation_missing :
    ("rotation" ∉ applyLogoParams) ∧
    ("rotation" ∈ logoCommandKwargs) ∧
    kwargsAccepted applyLogoParams logoCommandKwargs = false ∧
    ("rotation" ∈ applyLogotextParams) ∧
    (∀ center u v rotation cosR sinR xOff yOff, rotation ≠ 0 →
      offsetPlacement center (logotextAxes u v rotation cosR sinR).1
          (logotextAxes u v rotation cosR sinR).2 xOff yOff
        = center + (u.smul cosR + v.smul sinR).smul xOff
            + ((u.neg).smul sinR + v.smul cosR).smul yOff) := by
  refine ⟨by decide, by decide, by decide, by decide, ?_⟩
  intro center u v rotation cosR sinR xOff yOff hne
  simp [logotextAxes, offsetPlacement, hne]

/-- C7: for a module matrix with zero True cells (the empty matrix
included), _create_qr_solid returns None, and apply_qr then raises the
empty-matrix RuntimeError with the shape store exactly as it was, so no
boolean cut or fuse has been performed on the base solid (the error comes
before body_shape.copy()). -/
theorem qr_empty_matrix_aborts (m : List (List Bool)) (h0 : trueCountM m = 0)
    (qrSize height overlap : ℚ) (d : PartDoc) (base : ℕ) (face : FaceModel)
    (embossB : Bool) (xOff yOff : ℚ) :
    createQrSolid m qrSize height overlap = none ∧
    applyQrDoc d base face m qrSize height embossB xOff yOff
      = (d, Except.error ApplyErr.emptyMatrix) := by
  refine ⟨createQrSolid_none m h0 qrSize height overlap, ?_⟩
  unfold applyQrDoc
  have hq : createQrSolidDoc d m qrSize height (1 / 100) = (d, none) := by
    unfold createQrSolidDoc
    simp [qrRects_nil_of_empty m h0]
  rw [hq]

/-- Witness for C7 at a concrete all-False 2x2 matrix. -/
theorem qr_empty_matrix_witness :
    trueCountM [[false, false], [false, false]] = 0 ∧
    createQrSolid [[false, false], [false, false]] 20 (1 / 2) (1 / 100) = none ∧
    applyQrDoc sampleDoc 0 flatFace [[false, false], [false, false]] 20 (1 / 2)
        true 0 0 = (sampleDoc, Except.error ApplyErr.emptyMatrix) :=
  ⟨by decide,
   (qr_empty_matrix_aborts [[false, false], [false, false]] (by decide) 20
     (1 / 2) (1 / 100) sampleDoc 0 flatFace true 0 0).1,
   (qr_empty_matrix_aborts [[false, false], [false, false]] (by decide) 20
     (1 / 2) (1 / 100) sampleDoc 0 flatFace true 0 0).2⟩

/-- C8: each apply operation - logo deboss, logo+text deboss, QR emboss or
deboss - leaves the store entry of the input base solid unchanged: the
booleans run on a fresh copy (result = body_shape.copy()), every in-place
transform hits only shapes allocated during the call, and the error exits
return before anything touches the base, so a new solid is produced and the
base is unmodified on success and on failure alike. -/
theorem base_solid_unmodified (d : PartDoc) (base : ℕ)
    (hb : base < d.shapes.length) (face : FaceModel) (m : List (List Bool))
    (dia td mr tr br txr xOff yOff rotation cosR sinR qrSize height : ℚ)
    (embossB : Bool) :
    getShape (applyLogoDoc d base face dia td mr tr br xOff yOff).1 base
      = getShape d base ∧
    getShape (applyLogotextDoc d base face dia td mr tr br txr xOff yOff
        rotation cosR sinR).1 base = getShape d base ∧
    getShape (applyQrDoc d base face m qrSize height embossB xOff yOff).1 base
      = getShape d base :=
  ⟨(applyLogoDoc_pres d.shapes.length d base face dia td mr tr br xOff yOff
      (le_refl _)).2 base hb,
   (applyLogotextDoc_pres d.shapes.length d base face dia td mr tr br txr
      xOff yOff rotation cosR sinR (le_refl _)).2 base hb,
   (applyQrDoc_pres d.shapes.length d base face m qrSize height embossB
      xOff yOff (le_refl _)).2 base hb⟩

/-- Witness for C8 at a concrete one-shape store and planar face. -/
theorem base_solid_unmodified_witness :
    0 < sampleDoc.shapes.length ∧
    (getShape (applyLogoDoc sampleDoc 0 flatFace 18 (4/5) (11/20) (3/10)
        (3/20) 0 0).1 0 = getShape sampleDoc 0 ∧
    getShape (applyLogotextDoc sampleDoc 0 flatFace 18 (4/5) (11/20) (3/10)
        (3/20) 1 0 0 30 (1/2) (1/2)).1 0 = getShape sampleDoc 0 ∧
    getShape (applyQrDoc sampleDoc 0 flatFace [[true]] 20 (1/2) true 0 0).1 0
      = getShape sampleDoc 0) :=
  ⟨by decide,
   base_solid_unmodified sampleDoc 0 (by decide) flatFace [[true]] 18 (4/5)
     (11/20) (3/10) (3/20) 1 0 0 30 (1/2) (1/2) 20 (1/2) true⟩

end LogoPlugin
